import Mathlib

/-!
Verification development for the DataStorage repository (mrognor/DataStorage).

The development shallowly embeds the C++ sources:
* `DataSaver`, `DataContainer`, `DataStorageRecord`, `DataStorage` from
  `src/DataStorage.cpp` (the self-contained prototype engine);
* `DataStorageRecordRef` from `src/unnamed/part_000` (`DataStorageRecord.h`
  of the multi-index engine).

Machine conventions:
* runtime types (`std::type_info` tags) are modelled by `Ty`, stored values by
  the tagged universe `Val` (the demo program only ever stores `int` and
  `std::string` field values; `Bool` is included for the validity flag type);
* custom release callbacks (`DeleteFunc`) are modelled by `Option Nat`, a `Nat`
  being an opaque identifier of the attached callback; operations return the
  list of callback identifiers they invoked;
* `std::unordered_map` / `std::unordered_multimap` / `std::multimap` are
  modelled as association lists; `emplace` on a unique-keyed map inserts only
  when the key is absent, on a multi-keyed map it always appends;
* undefined behaviour (dereferencing a null or dangling pointer, reading an
  uninitialized variable) is modelled by `Option.none` results.
-/

/-- Runtime type tags, the model of `std::type_info` identities. -/
inductive Ty where
  | tInt
  | tStr
  | tBool
deriving DecidableEq, Repr

/-- Tagged values: everything the demo program stores in a `DataSaver`. -/
inductive Val where
  | vInt (n : Int)
  | vStr (s : String)
  | vBool (b : Bool)
deriving DecidableEq, Repr

/-- The runtime type tag of a value (`typeid(data)`). -/
def Val.ty : Val → Ty
  | .vInt _ => .tInt
  | .vStr _ => .tStr
  | .vBool _ => .tBool

/-- `DataSaver` (src/DataStorage.cpp lines 25-186): a type-erased cell.
`val` models the pair `Ptr`/`DataType` (they are always set and cleared
together, so one `Option` suffices: `some v` means `Ptr` points at `v` and
`DataType` holds `v.ty`).  `deleteFunc` models the `DeleteFunc` pointer. -/
structure DataSaver where
  val : Option Val
  deleteFunc : Option Nat
deriving DecidableEq, Repr

/-- The default-constructed `DataSaver`: both pointers null. -/
def DataSaver.empty : DataSaver := ⟨none, none⟩

/-- `DataSaver::SetData(data, deleteFunc)` (src/DataStorage.cpp lines 115-145):
frees the old value, stores a fresh copy of `data`, records its type, and
unconditionally overwrites `DeleteFunc` with the supplied argument (the
one-argument overload passes `nullptr`).  The old callback is discarded
without being invoked, hence the empty invocation list. -/
def DataSaver.setData (_s : DataSaver) (v : Val) (d : Option Nat) : DataSaver × List Nat :=
  (⟨some v, d⟩, [])

/-- Result of `DataSaver::GetData`: the (unmutated) cell, the returned `bool`,
the out-parameter after the call, and whether the type-mismatch diagnostic
was printed. -/
structure GetOut where
  cell : DataSaver
  ok : Bool
  out : Val
  diag : Bool
deriving DecidableEq, Repr

/-- `DataSaver::GetData(T& data)` (src/DataStorage.cpp lines 148-165): if a
type is stored and it differs from `typeid(data)` (here `out.ty`), print the
diagnostic and return false leaving `data` untouched; if no value is stored
return false; otherwise copy the stored value into `data` and return true. -/
def DataSaver.getData (s : DataSaver) (out : Val) : GetOut :=
  match s.val with
  | some v =>
      if v.ty ≠ out.ty then ⟨s, false, out, true⟩
      else ⟨s, true, v, false⟩
  | none => ⟨s, false, out, false⟩

/-- `DataSaver::DeleteData` (src/DataStorage.cpp lines 168-175): invoke the
custom callback if one is attached, then clear it so a second call does
nothing.  Returns the invoked callback identifiers. -/
def DataSaver.deleteData (s : DataSaver) : DataSaver × List Nat :=
  match s.deleteFunc with
  | some f => (⟨s.val, none⟩, [f])
  | none => (s, [])

/-- `DataSaver::~DataSaver` (src/DataStorage.cpp lines 178-185): frees `Ptr`
and `DataType` but never touches `DeleteFunc`; no callback is invoked. -/
def DataSaver.destruct (_s : DataSaver) : List Nat := []

/-- Generic association-list lookup: `Container.find(key)` returning the
mapped value of the first matching entry. -/
def lookupA {κ α : Type} [DecidableEq κ] : List (κ × α) → κ → Option α
  | [], _ => none
  | (k, a) :: l, key => if k = key then some a else lookupA l key

/-- Generic `emplace` of a unique-keyed `std::unordered_map`: insert only when
the key is absent. -/
def emplaceA {κ α : Type} [DecidableEq κ] (l : List (κ × α)) (key : κ) (a : α) :
    List (κ × α) :=
  if (lookupA l key).isSome then l else l ++ [(key, a)]

/-- Generic in-place update of the entry holding `key` (no-op when absent). -/
def setA {κ α : Type} [DecidableEq κ] : List (κ × α) → κ → α → List (κ × α)
  | [], _, _ => []
  | (k, a) :: l, key, x => if k = key then (k, x) :: l else (k, a) :: setA l key x

/-- Erase the first element satisfying the predicate (the model of erasing the
iterator found by a scan, and of `erase(key)` on a unique-keyed map). -/
def eraseFirst {α : Type} (p : α → Bool) : List α → List α
  | [] => []
  | a :: l => if p a then l else a :: eraseFirst p l

/-- `DataHashMap`: `DataContainer<std::unordered_map<std::string, DataSaver>>`
(src/DataStorage.cpp lines 191-275 and the identical src/DataContainer.h). -/
abbrev DHMap : Type := List (String × DataSaver)

/-- `DataContainer::AddData(key, data, deleteFunc)`: `emplace`, so the entry
is inserted only when the key is absent. -/
def DHMap.addData (m : DHMap) (key : String) (v : Val) (d : Option Nat) : DHMap :=
  emplaceA m key ⟨some v, d⟩

/-- `DataContainer::SetData(key, data, deleteFunc)` (src/DataContainer.h lines
90-101): add the entry if the key is absent, otherwise update the existing
cell in place with `DataSaver::SetData` (which overwrites both the value and
the callback).  The two-argument overload passes `deleteFunc = nullptr`. -/
def DHMap.setData (m : DHMap) (key : String) (v : Val) (d : Option Nat) : DHMap :=
  match lookupA m key with
  | none => m ++ [(key, (⟨some v, d⟩ : DataSaver))]
  | some sv => setA m key (sv.setData v d).1

/-- `DataContainer::GetData(key, T& data)` (src/DataContainer.h lines 112-121):
returns false only when the key is absent; when the key is present it calls
the cell's `GetData` but ignores that call's result and returns true. -/
def DHMap.getData (m : DHMap) (key : String) (out : Val) : Bool × Val :=
  match lookupA m key with
  | none => (false, out)
  | some sv => (true, (sv.getData out).out)

/-- `DataContainer::IsData(key)`. -/
def DHMap.isData (m : DHMap) (key : String) : Bool :=
  (lookupA m key).isSome

/-- `DataContainer::DeleteData(key)` (src/DataStorage.cpp lines 261-269): find
the entry, invoke its cell's custom deletion, erase it.  Returns the new map
and the invoked callback identifiers. -/
def DHMap.deleteData (m : DHMap) (key : String) : DHMap × List Nat :=
  match lookupA m key with
  | none => (m, [])
  | some sv => (eraseFirst (fun e => decide (e.1 = key)) m, (sv.deleteData).2)

/-- The current value of field `f` in a record payload (the value stored in
the payload's cell for `f`, if any). -/
def fieldVal (m : DHMap) (f : String) : Option Val :=
  (lookupA m f).bind DataSaver.val

/-! ## The prototype engine of src/DataStorage.cpp -/

/-- Record identity: the model of a `DataHashMap*` / `DataStorageRecord*`
pointer.  Distinct records get distinct identifiers. -/
abbrev RecId : Type := Nat

/-- A per-field equality index of the prototype engine: the
`std::unordered_map<T, DataHashMap*>` allocated by `AddParam`, modelled as the
runtime tag of `T` together with the unique-keyed value-to-record map. -/
abbrev OldIndex : Type := Ty × List (Val × RecId)

/-- `DataStorage` (src/DataStorage.cpp lines 346-416).  `keysMaps` models the
`KeysMaps` container of typed index-map pointers (the teardown-only delete
callbacks attached to its cells are not needed here); `fillers` models
`DataStorageRecordFillers`, each filler being determined by the captured
field name and default value. -/
structure OldStorage where
  recordTemplate : DHMap
  keysMaps : List (String × OldIndex)
  fillers : List (String × Val)
  records : List (RecId × DHMap)
  nextId : RecId
deriving DecidableEq, Repr

/-- `DataStorage::AddParam(paramName, defaultParamValue)` (src/DataStorage.cpp
lines 357-374): `AddData`/`emplace` the default into the record template, a
fresh empty index map into `KeysMaps`, and a filler that will seed future
records; each `emplace` silently does nothing when the name is already
present. -/
def OldStorage.addParam (s : OldStorage) (name : String) (default : Val) : OldStorage :=
  { s with
      recordTemplate := s.recordTemplate.addData name default none
      keysMaps := emplaceA s.keysMaps name (default.ty, [])
      fillers := emplaceA s.fillers name default }

/-- Run the record fillers: for each registered field, `emplace` the captured
default value mapped to the new record into that field's index map — the
insertion is silently skipped when the default value is already a key. -/
def oldSeed (rid : RecId) (fillers : List (String × Val))
    (km : List (String × OldIndex)) : List (String × OldIndex) :=
  match fillers with
  | [] => km
  | (f, d) :: rest =>
      oldSeed rid rest
        (match lookupA km f with
         | none => km
         | some (ty, l) =>
             if l.any (fun e => decide (e.1 = d)) then km
             else setA km f (ty, l ++ [(d, rid)]))

/-- `DataStorage::CreateNewRecord` (src/DataStorage.cpp lines 376-385): copy
the record template into a new record, run every filler on it, register it in
`RecordsList`, and return a handle to it. -/
def OldStorage.createNewRecord (s : OldStorage) : OldStorage × RecId :=
  let rid := s.nextId
  ({ s with
       keysMaps := oldSeed rid s.fillers s.keysMaps
       records := s.records ++ [(rid, s.recordTemplate)]
       nextId := rid + 1 }, rid)

/-- `DataStorageRecord::SetData(key, data)` (src/DataStorage.cpp lines
309-335), the record handle of the prototype engine; note the function
returns `void` in the source.  `none` models undefined behaviour:
* the result of `KeysMaps->GetData(key, pointer)` is ignored, so an
  undeclared `key` (or a `T` differing from the field's declared type) leaves
  `pointer` null and `pointer->find(oldData)` dereferences it;
* a failed `Data->GetData(key, oldData)` leaves `oldData` uninitialized;
* when `oldData` is not a key of the index map, `find` returns the `end()`
  iterator, which the next line dereferences.
Otherwise the code erases `key` from the hash map of the record *found in the
index under `oldData`* (invoking nothing: payload cells carry no custom
deleter), re-adds `key := data` there, relocates the index entry (the
`emplace` being silently skipped when `data` is already a key), and finally
writes `key := data` into this record's own payload. -/
def OldStorage.recSetData (s : OldStorage) (rid : RecId) (key : String) (data : Val) :
    Option OldStorage :=
  match lookupA s.keysMaps key with
  | none => none
  | some (ty, idx) =>
      if data.ty ≠ ty then none
      else
        match (lookupA s.records rid).bind (fun pl => fieldVal pl key) with
        | none => none
        | some oldv =>
            if oldv.ty ≠ data.ty then none
            else
              match idx.find? (fun e => decide (e.1 = oldv)) with
              | none => none
              | some victim =>
                  match lookupA s.records victim.2 with
                  | none => none
                  | some vicPl =>
                      let records1 :=
                        setA s.records victim.2 (((vicPl.deleteData key).1).addData key data none)
                      let idx1 := eraseFirst (fun e => decide (e.1 = oldv)) idx
                      let idx2 :=
                        if idx1.any (fun e => decide (e.1 = data)) then idx1
                        else idx1 ++ [(data, rid)]
                      let records2 :=
                        match lookupA records1 rid with
                        | none => records1
                        | some pl2 => setA records1 rid (pl2.setData key data none)
                      some { s with keysMaps := setA s.keysMaps key (ty, idx2), records := records2 }

/-- `DataStorage::GetRecord(paramName, paramValue, foundedRecord)`
(src/DataStorage.cpp lines 387-406).  Result `some (found, bound)`: `found`
is the returned bool, `bound` is the record the out-handle was re-bound to
(`none` = the handle was left untouched).  `none` models the undefined
behaviour when `paramName` is declared but `T` differs from the field's
declared type: `KeysMaps.GetData` then returns true while leaving `reqMap`
null, and `reqMap->find` dereferences it. -/
def OldStorage.getRecord (s : OldStorage) (name : String) (value : Val) :
    Option (Bool × Option RecId) :=
  match lookupA s.keysMaps name with
  | none => some (false, none)
  | some (ty, idx) =>
      if value.ty ≠ ty then none
      else
        match idx.find? (fun e => decide (e.1 = value)) with
        | none => some (false, none)
        | some e => some (true, some e.2)

/-! ## The multi-index engine of src/unnamed/part_000 (DataStorageRecord.h) -/

/-- One per-field index of the multi-index engine: a list of (value, record)
entries.  Models both the `std::unordered_multimap<T, DataStorageRecord*>`
equality index and the `std::multimap<T, DataStorageRecord*>` ordering index
(the claims below depend only on entry multiplicities, never on entry order,
so one list model serves both). -/
abbrev Bucket : Type := List (Val × RecId)

/-- The test `it->first == v && it->second == r` used by the erase scans. -/
def entryIs (v : Val) (r : RecId) (e : Val × RecId) : Bool :=
  decide (e.1 = v) && decide (e.2 = r)

/-- Number of index entries mapping value `v` to record `r`. -/
def cnt (l : Bucket) (v : Val) (r : RecId) : Nat :=
  (l.filter (entryIs v r)).length

/-- The storage state of the multi-index engine: the schema template, the
`DataStorageStructureHashMap` (equality indices) and `DataStorageStructureMap`
(ordering indices) keyed by field name and carrying their key type, and the
live records. -/
structure NewStorage where
  template : DHMap
  hashStruct : List (String × (Ty × Bucket))
  mapStruct : List (String × (Ty × Bucket))
  records : List (RecId × DHMap)
  nextId : RecId
deriving DecidableEq, Repr

/-- `DataStorageRecordRef` (src/unnamed/part_000 lines 55-204): the target
record pointer and the weak copy of the validity flag.  `valid` is the value
`IsValid()` would read at call time. -/
structure NewRef where
  dataRecord : Option RecId
  valid : Bool
deriving DecidableEq, Repr

/-- `DataStorageRecordRef::SetData(key, data)` (src/unnamed/part_000 lines
110-169).  The body never reads `IsDataStorageRecordValid`, so the model
never reads `ref.valid`.  Steps, as in the source: look the field up in both
index structures (returning false when either lacks the key); read the
record's current value `oldv` of the field; in each index, scan the bucket of
entries keyed `oldv` and erase the first one whose payload is this record;
`emplace` `(data, thisRecord)` into each index; finally overwrite the field
in the record payload.  `none` models undefined behaviour:
* a type `T` differing from an index's key type leaves that typed pointer
  null (the structure-level `GetData` still returns true) and `equal_range`
  dereferences it;
* a null or dangling `DataRecord` pointer (destroyed record) is dereferenced
  by `DataRecord->GetData`;
* a failed payload read leaves `oldData` uninitialized. -/
def NewStorage.refSetData (s : NewStorage) (ref : NewRef) (key : String) (data : Val) :
    Option (NewStorage × Bool) :=
  match lookupA s.hashStruct key, lookupA s.mapStruct key with
  | none, _ => some (s, false)
  | some _, none => some (s, false)
  | some (tyH, hm), some (tyM, mm) =>
      if data.ty ≠ tyH then none
      else if data.ty ≠ tyM then none
      else
        match ref.dataRecord with
        | none => none
        | some rid =>
            match lookupA s.records rid with
            | none => none
            | some pl =>
                match fieldVal pl key with
                | none => none
                | some oldv =>
                    if oldv.ty ≠ data.ty then none
                    else
                      some ({ s with
                        hashStruct := setA s.hashStruct key
                          (tyH, eraseFirst (entryIs oldv rid) hm ++ [(data, rid)])
                        mapStruct := setA s.mapStruct key
                          (tyM, eraseFirst (entryIs oldv rid) mm ++ [(data, rid)])
                        records := setA s.records rid (pl.setData key data none) }, true)

/-- `DataStorageRecordRef::GetData(key, data)` (src/unnamed/part_000 lines
191-195): a plain passthrough `DataRecord->GetData(key, data)`.  The body
never reads the validity flag; a destroyed target record means the dangling
`DataRecord` pointer is dereferenced (`none`). -/
def NewStorage.refGetData (s : NewStorage) (ref : NewRef) (key : String) (out : Val) :
    Option (Bool × Val) :=
  match ref.dataRecord with
  | none => none
  | some rid =>
      match lookupA s.records rid with
      | none => none
      | some pl => some (pl.getData key out)

/-- Modelled from the spec: `declareField` of the multi-index engine.  The
engine's `DataStorage` class lives in `DataStorage.h`, which is not among the
provided sources (only its record/ref header, src/unnamed/part_000, is).  Per
spec section 4.5 it registers the field with its default value and runtime
type, allocates a fresh equality/ordering index pair, and registers a seeding
rule so every future `createRecord` inserts the default for this field into
both indices. -/
def NewStorage.addKey (s : NewStorage) (name : String) (default : Val) : NewStorage :=
  { s with
      template := s.template.addData name default none
      hashStruct := emplaceA s.hashStruct name (default.ty, [])
      mapStruct := emplaceA s.mapStruct name (default.ty, []) }

/-- Insert `(d, rid)` into field `f`'s index: multimap `emplace`, which always
appends (no-op only when the field has no index at all). -/
def seedField (st : List (String × (Ty × Bucket))) (f : String) (d : Val) (rid : RecId) :
    List (String × (Ty × Bucket)) :=
  match lookupA st f with
  | none => st
  | some (ty, l) => setA st f (ty, l ++ [(d, rid)])

/-- Seed a new record into an index structure at every template field's
default value. -/
def seedAll (rid : RecId) (tmpl : DHMap) (st : List (String × (Ty × Bucket))) :
    List (String × (Ty × Bucket)) :=
  match tmpl with
  | [] => st
  | (f, sv) :: rest =>
      seedAll rid rest
        (match sv.val with
         | some d => seedField st f d rid
         | none => st)

/-- Modelled from the spec: `createRecord` of the multi-index engine
(`DataStorage.h` is not among the provided sources).  Per spec sections 2 and
4.5 it deep-copies the schema into a new record, inserts the record into
every declared field's equality and ordering index under that field's default
value (the indices are the multimaps named in src/unnamed/part_000, so the
insertions always append), registers the record among the live records, and
returns a bound, valid RecordRef. -/
def NewStorage.createRecord (s : NewStorage) : NewStorage × NewRef :=
  let rid := s.nextId
  ({ s with
       hashStruct := seedAll rid s.template s.hashStruct
       mapStruct := seedAll rid s.template s.mapStruct
       records := s.records ++ [(rid, s.template)]
       nextId := rid + 1 },
   ⟨some rid, true⟩)

/-- Modelled from the spec: `findByField` of the multi-index engine
(`DataStorage.h` is not among the provided sources).  Per spec section 4.5 it
fails when the name is undeclared, otherwise looks the value up in that
field's equality index and on a hit binds the out-ref to the found record;
the equality index is a multimap, so the lookup yields the first entry with
that key.  Result: (returned bool, record the out-ref was bound to). -/
def NewStorage.findByField (s : NewStorage) (name : String) (value : Val) :
    Bool × Option RecId :=
  match lookupA s.hashStruct name with
  | none => (false, none)
  | some (_ty, l) =>
      match l.find? (fun e => decide (e.1 = value)) with
      | none => (false, none)
      | some e => (true, some e.2)

/-! ## Concrete demonstration states (used by witnesses and counterexamples) -/

/-- Empty multi-index storage. -/
def ns0 : NewStorage := ⟨[], [], [], [], 0⟩

/-- One declared field "id" of type int, default 0. -/
def ns1 : NewStorage := ns0.addKey "id" (.vInt 0)

/-- First record created (record 0, "id" = 0). -/
def ns2 : NewStorage := (ns1.createRecord).1

/-- A ref bound to record 0. -/
def ref1 : NewRef := (ns1.createRecord).2

/-- Second record created (record 1, "id" = 0). -/
def ns3 : NewStorage := (ns2.createRecord).1

/-- A ref bound to record 1. -/
def ref2 : NewRef := (ns2.createRecord).2

/-- After `ref1.SetData("id", 5)`: record 0 holds 5, record 1 holds 0. -/
def ns4 : NewStorage := ((ns3.refSetData ref1 "id" (.vInt 5)).getD (ns3, false)).1

/-- After `ref2.SetData("id", 5)` as well: both live records hold 5. -/
def ns5 : NewStorage := ((ns4.refSetData ref2 "id" (.vInt 5)).getD (ns4, false)).1

/-- A storage whose only record has been destroyed: the field "id" and its
(now empty) indices survive, the record's payload storage is released. -/
def dsGone : NewStorage :=
  ⟨[("id", ⟨some (.vInt 0), none⟩)], [("id", (.tInt, []))], [("id", (.tInt, []))], [], 1⟩

/-- A ref still targeting the destroyed record 0: its weak validity flag
reads false. -/
def refDead : NewRef := ⟨some 0, false⟩

/-- Empty prototype storage. -/
def os0 : OldStorage := ⟨[], [], [], [], 0⟩

/-- One declared field "id" of type int, default -1. -/
def os1 : OldStorage := os0.addParam "id" (.vInt (-1))

/-- First record created (record 0); the index maps -1 to it. -/
def os2 : OldStorage := (os1.createNewRecord).1

/-- Second record created (record 1); its index insertion was silently
skipped because -1 is already a key. -/
def os3 : OldStorage := (os2.createNewRecord).1

/-- After `SetData("id", 0)` on record 0: the index maps only 0 to record 0,
while live record 1 still holds -1. -/
def os4 : OldStorage := (os3.recSetData 0 "id" (.vInt 0)).getD os3

/-! ## Generic association-list lemmas -/

theorem lookupA_setA_self {κ α : Type} [DecidableEq κ] (l : List (κ × α)) (key : κ) (x : α)
    (h : (lookupA l key).isSome) : lookupA (setA l key x) key = some x := by
  induction l with
  | nil => simp [lookupA] at h
  | cons e l ih =>
      obtain ⟨k, a⟩ := e
      by_cases hk : k = key
      · subst hk
        simp [setA, lookupA]
      · simp only [setA, lookupA, if_neg hk] at h ⊢
        exact ih h

theorem lookupA_setA_ne {κ α : Type} [DecidableEq κ] (l : List (κ × α)) (key k : κ) (x : α)
    (h : k ≠ key) : lookupA (setA l key x) k = lookupA l k := by
  induction l with
  | nil => simp [setA]
  | cons e l ih =>
      obtain ⟨k', a⟩ := e
      by_cases hk : k' = key
      · subst hk
        have : k' ≠ k := fun he => h he.symm
        simp [setA, lookupA, this]
      · simp only [setA, if_neg hk, lookupA]
        by_cases hk2 : k' = k
        · simp [hk2]
        · simp [hk2, ih]

theorem lookupA_append_left {κ α : Type} [DecidableEq κ] (l l' : List (κ × α)) (key : κ)
    (a : α) (h : lookupA l key = some a) : lookupA (l ++ l') key = some a := by
  induction l with
  | nil => simp [lookupA] at h
  | cons e l ih =>
      obtain ⟨k, b⟩ := e
      by_cases hk : k = key
      · subst hk
        simp only [lookupA, if_pos rfl] at h ⊢
        exact h
      · simp only [List.cons_append, lookupA, if_neg hk] at h ⊢
        exact ih h

theorem lookupA_append_right {κ α : Type} [DecidableEq κ] (l l' : List (κ × α)) (key : κ)
    (h : lookupA l key = none) : lookupA (l ++ l') key = lookupA l' key := by
  induction l with
  | nil => simp
  | cons e l ih =>
      obtain ⟨k, b⟩ := e
      by_cases hk : k = key
      · simp [lookupA, hk] at h
      · simp only [List.cons_append, lookupA, if_neg hk] at h ⊢
        exact ih h

theorem lookupA_eq_none_iff {κ α : Type} [DecidableEq κ] (l : List (κ × α)) (key : κ) :
    lookupA l key = none ↔ key ∉ l.map Prod.fst := by
  induction l with
  | nil => simp [lookupA]
  | cons e l ih =>
      obtain ⟨k, a⟩ := e
      by_cases hk : k = key
      · subst hk
        simp [lookupA]
      · have hk' : ¬key = k := fun he => hk he.symm
        simp only [lookupA, if_neg hk, List.map_cons, List.mem_cons, not_or]
        rw [ih]
        exact ⟨fun h => ⟨hk', h⟩, fun h => h.2⟩

theorem setA_map_fst {κ α : Type} [DecidableEq κ] (l : List (κ × α)) (key : κ) (x : α) :
    (setA l key x).map Prod.fst = l.map Prod.fst := by
  induction l with
  | nil => simp [setA]
  | cons e l ih =>
      obtain ⟨k, a⟩ := e
      by_cases hk : k = key
      · simp [setA, hk]
      · simp [setA, hk, ih]

/-! ## C3: type-mismatched reads -/

/-- C3 (amended): a read with a requested type differing from the stored type
never mutates state and never touches the output argument, but only the
`DataSaver` cell itself reports the failure: the cell's `GetData` returns
false and emits the diagnostic, while the keyed container's `GetData` (and
hence `DataStorageRecordRef::GetData`, a passthrough to it) ignores the
cell's result and returns true whenever the key is present — its boolean
reports key presence, not type agreement. -/
theorem c3_mismatched_read (s : DataSaver) (v out : Val) (m : DHMap) (key : String)
    (st : NewStorage) (ref : NewRef) (rid : RecId) (pl : DHMap) :
    (s.val = some v → v.ty ≠ out.ty → s.getData out = ⟨s, false, out, true⟩) ∧
    (lookupA m key = some s → s.val = some v → v.ty ≠ out.ty →
      m.getData key out = (true, out)) ∧
    (lookupA m key = none → m.getData key out = (false, out)) ∧
    (ref.dataRecord = some rid → lookupA st.records rid = some pl →
      lookupA pl key = some s → s.val = some v → v.ty ≠ out.ty →
      st.refGetData ref key out = some (true, out)) := by
  refine ⟨fun hv hne => ?_, fun hm hv hne => ?_, fun hm => ?_, fun hr hrec hm hv hne => ?_⟩
  · simp [DataSaver.getData, hv, hne]
  · simp [DHMap.getData, hm, DataSaver.getData, hv, hne]
  · simp [DHMap.getData, hm]
  · simp [NewStorage.refGetData, hr, hrec, DHMap.getData, hm, DataSaver.getData, hv, hne]

/-- C3 witness: concrete mismatched reads at each level. -/
theorem c3_mismatched_read_witness :
    DataSaver.getData ⟨some (.vInt 5), some 7⟩ (.vStr "x")
      = ⟨⟨some (.vInt 5), some 7⟩, false, .vStr "x", true⟩ ∧
    DHMap.getData [("a", ⟨some (.vInt 5), none⟩)] "a" (.vStr "x") = (true, .vStr "x") ∧
    DHMap.getData [("a", ⟨some (.vInt 5), none⟩)] "b" (.vStr "x") = (false, .vStr "x") ∧
    ns2.refGetData ref1 "id" (.vStr "x") = some (true, .vStr "x") := by
  refine ⟨?_, ?_, ?_, ?_⟩
  · exact (c3_mismatched_read ⟨some (.vInt 5), some 7⟩ (.vInt 5) (.vStr "x") [] "a"
      ns0 ⟨none, true⟩ 0 []).1 rfl (by decide)
  · exact (c3_mismatched_read ⟨some (.vInt 5), none⟩ (.vInt 5) (.vStr "x")
      [("a", ⟨some (.vInt 5), none⟩)] "a" ns0 ⟨none, true⟩ 0 []).2.1 (by decide) rfl (by decide)
  · exact (c3_mismatched_read ⟨some (.vInt 5), none⟩ (.vInt 5) (.vStr "x")
      [("a", ⟨some (.vInt 5), none⟩)] "b" ns0 ⟨none, true⟩ 0 []).2.2.1 (by decide)
  · exact (c3_mismatched_read ⟨some (.vInt 0), none⟩ (.vInt 0) (.vStr "x")
      [("id", ⟨some (.vInt 0), none⟩)] "id" ns2 ref1 0
      [("id", ⟨some (.vInt 0), none⟩)]).2.2.2 (by decide) (by decide) (by decide) rfl (by decide)

/-- C3 counterexample: the claim says GetData returns false on a type
mismatch at every level; at the keyed-container level the stored cell for
"a" holds an int, a string is requested, yet `GetData` returns true (the
output is still untouched). -/
theorem c3_container_true_on_mismatch :
    lookupA ([("a", (⟨some (.vInt 5), none⟩ : DataSaver))] : DHMap) "a"
      = some ⟨some (.vInt 5), none⟩ ∧
    (Val.vInt 5).ty ≠ (Val.vStr "x").ty ∧
    DHMap.getData [("a", ⟨some (.vInt 5), none⟩)] "a" (.vStr "x") = (true, .vStr "x") := by
  decide

/-! ## C6: container SetData upsert semantics -/

/-- C6 (amended): `SetData(key, data)` adds the entry when the key is absent
and otherwise updates the existing cell in place (other keys untouched); the
updated cell's release callback is exactly the one supplied to the call —
`DataSaver::SetData` overwrites `DeleteFunc` unconditionally — so updating
through the two-argument overload (which passes `nullptr`) clears the prior
callback instead of preserving it. -/
theorem c6_setData_upsert (m : DHMap) (key : String) (v : Val) (d : Option Nat)
    (sv0 : DataSaver) :
    (lookupA m key = none → m.setData key v d = m ++ [(key, ⟨some v, d⟩)]) ∧
    (∀ sv, lookupA m key = some sv →
      m.setData key v d = setA m key ⟨some v, d⟩ ∧
      lookupA (m.setData key v d) key = some ⟨some v, d⟩ ∧
      ∀ k, k ≠ key → lookupA (m.setData key v d) k = lookupA m k) ∧
    (sv0.setData v d).1 = ⟨some v, d⟩ := by
  refine ⟨fun hm => ?_, fun sv hm => ⟨?_, ?_, fun k hk => ?_⟩, rfl⟩
  · simp [DHMap.setData, hm]
  · simp [DHMap.setData, hm, DataSaver.setData]
  · simp only [DHMap.setData, hm, DataSaver.setData]
    exact lookupA_setA_self m key _ (by simp [hm])
  · simp only [DHMap.setData, hm, DataSaver.setData]
    exact lookupA_setA_ne m key k _ hk

/-- C6 witness: concrete add-if-absent and update-in-place calls. -/
theorem c6_setData_upsert_witness :
    DHMap.setData [] "a" (.vInt 1) (some 7) = [("a", ⟨some (.vInt 1), some 7⟩)] ∧
    DHMap.setData [("a", ⟨some (.vInt 1), some 7⟩)] "a" (.vInt 2) none
      = [("a", ⟨some (.vInt 2), none⟩)] := by
  constructor
  · exact (c6_setData_upsert [] "a" (.vInt 1) (some 7) ⟨none, none⟩).1 (by decide)
  · have h := ((c6_setData_upsert [("a", ⟨some (.vInt 1), some 7⟩)] "a" (.vInt 2) none
      ⟨none, none⟩).2.1 ⟨some (.vInt 1), some 7⟩ (by decide)).1
    rw [h]
    decide

/-- C6 counterexample: the claim says an update without a new release
callback preserves the prior one; updating the cell for "a" (prior callback
identifier 7) without a callback leaves the cell with no callback at all. -/
theorem c6_callback_not_preserved :
    lookupA ([("a", (⟨some (.vInt 1), some 7⟩ : DataSaver))] : DHMap) "a"
      = some ⟨some (.vInt 1), some 7⟩ ∧
    lookupA (DHMap.setData [("a", ⟨some (.vInt 1), some 7⟩)] "a" (.vInt 2) none) "a"
      = some ⟨some (.vInt 2), none⟩ ∧
    (some 7 : Option Nat) ≠ none := by
  decide

/-! ## C7: release callbacks are invoked at most once -/

/-- One operation applied to a `DataSaver` cell during its lifetime:
an overwrite (`SetData`) or an explicit release (`DeleteData`). -/
inductive CellOp where
  | set (v : Val) (d : Option Nat)
  | release
deriving DecidableEq, Repr

/-- Whether the operation is an overwrite. -/
def CellOp.isSet : CellOp → Bool
  | .set _ _ => true
  | .release => false

/-- Run a sequence of operations on a cell, collecting every callback
invocation they perform. -/
def runOps (s : DataSaver) : List CellOp → DataSaver × List Nat
  | [] => (s, [])
  | op :: rest =>
      let r1 := match op with
        | CellOp.set v d => s.setData v d
        | CellOp.release => s.deleteData
      let r2 := runOps r1.1 rest
      (r2.1, r1.2 ++ r2.2)

theorem deleteData_clears (s : DataSaver) : ((s.deleteData).1).deleteFunc = none := by
  unfold DataSaver.deleteData
  cases h : s.deleteFunc with
  | none => simp [h]
  | some f => simp

theorem deleteData_of_none (s : DataSaver) (h : s.deleteFunc = none) :
    s.deleteData = (s, []) := by
  unfold DataSaver.deleteData
  simp [h]

theorem runOps_no_callback :
    ∀ ops : List CellOp, (∀ op ∈ ops, op.isSet = false) →
      ∀ s : DataSaver, s.deleteFunc = none → (runOps s ops).2 = [] := by
  intro ops
  induction ops with
  | nil =>
      intro _ s _
      simp [runOps]
  | cons op rest ih =>
      intro hops s hs
      cases op with
      | set v d => exact absurd (hops (.set v d) (by simp)) (by simp [CellOp.isSet])
      | release =>
          have hrest : ∀ op ∈ rest, op.isSet = false := fun op h => hops op (by simp [h])
          simp only [runOps, DataSaver.deleteData, hs]
          simpa using ih hrest s hs

theorem runOps_no_set_length :
    ∀ ops : List CellOp, (∀ op ∈ ops, op.isSet = false) →
      ∀ s : DataSaver, ((runOps s ops).2).length ≤ 1 := by
  intro ops
  induction ops with
  | nil =>
      intro _ s
      simp [runOps]
  | cons op rest ih =>
      intro hops s
      cases op with
      | set v d => exact absurd (hops (.set v d) (by simp)) (by simp [CellOp.isSet])
      | release =>
          have hrest : ∀ op ∈ rest, op.isSet = false := fun op h => hops op (by simp [h])
          simp only [runOps]
          cases h : s.deleteFunc with
          | none =>
              have := ih hrest s
              simpa [DataSaver.deleteData, h] using this
          | some f =>
              have h2 : (runOps ((s.deleteData).1) rest).2 = [] :=
                runOps_no_callback rest hrest _ (deleteData_clears s)
              simp [DataSaver.deleteData, h] at h2 ⊢
              simp [h2]

/-- C7: a cell's attached release callback is invoked at most once over the
cell's lifetime: overwriting the value (`SetData`) invokes nothing, ordinary
destruction (`~DataSaver`) invokes nothing, a single explicit release
(`DeleteData`) invokes at most one callback, a second explicit release after
the first invokes nothing, and any whole sequence of operations containing
no re-attachment (no `SetData`) performs at most one invocation in total. -/
theorem c7_release_at_most_once (s : DataSaver) (v : Val) (d : Option Nat)
    (ops : List CellOp) :
    (s.setData v d).2 = [] ∧
    s.destruct = [] ∧
    ((s.deleteData).2).length ≤ 1 ∧
    (((s.deleteData).1).deleteData).2 = [] ∧
    ((∀ op ∈ ops, op.isSet = false) → ((runOps s ops).2).length ≤ 1) := by
  refine ⟨rfl, rfl, ?_, ?_, fun hops => runOps_no_set_length ops hops s⟩
  · unfold DataSaver.deleteData
    cases s.deleteFunc <;> simp
  · rw [deleteData_of_none _ (deleteData_clears s)]

/-- C7 witness: a cell with an attached callback, released twice: the whole
sequence performs at most one invocation, and an overwrite performs none. -/
theorem c7_release_at_most_once_witness :
    ((runOps ⟨some (.vInt 1), some 3⟩ [CellOp.release, CellOp.release]).2).length ≤ 1 ∧
    (DataSaver.setData ⟨some (.vInt 1), some 3⟩ (.vInt 2) none).2 = [] ∧
    ((DataSaver.deleteData ⟨some (.vInt 1), some 3⟩).1.deleteData).2 = [] := by
  have h := c7_release_at_most_once ⟨some (.vInt 1), some 3⟩ (.vInt 2) none
    [CellOp.release, CellOp.release]
  exact ⟨h.2.2.2.2 (by decide), h.1, h.2.2.2.1⟩

/-! ## Lemmas about index maps -/

theorem eraseFirst_sublist {α : Type} (p : α → Bool) (l : List α) :
    List.Sublist (eraseFirst p l) l := by
  induction l with
  | nil => simp [eraseFirst]
  | cons a l ih =>
      by_cases h : p a
      · simp only [eraseFirst, if_pos h]
        exact List.Sublist.cons a (List.Sublist.refl l)
      · simp only [eraseFirst, if_neg h]
        exact List.Sublist.cons₂ a ih

theorem nodup_fst_unique {β γ : Type} (l : List (β × γ)) (h : (l.map Prod.fst).Nodup)
    (v : β) (r1 r2 : γ) (h1 : (v, r1) ∈ l) (h2 : (v, r2) ∈ l) : r1 = r2 := by
  induction l with
  | nil => cases h1
  | cons e l ih =>
      rw [List.map_cons, List.nodup_cons] at h
      rcases List.mem_cons.1 h1 with he1 | ht1
      · rcases List.mem_cons.1 h2 with he2 | ht2
        · rw [← he1] at he2
          exact (Prod.mk.injEq _ _ _ _ ▸ he2).2.symm
        · exact absurd (List.mem_map_of_mem Prod.fst ht2)
            (by rw [← he1] at h; exact h.1)
      · rcases List.mem_cons.1 h2 with he2 | ht2
        · exact absurd (List.mem_map_of_mem Prod.fst ht1)
            (by rw [← he2] at h; exact h.1)
        · exact ih h.2 ht1 ht2

theorem find?_of_mem_nodup {γ : Type} (l : List (Val × γ)) (v : Val) (r : γ)
    (hmem : (v, r) ∈ l) (hnd : (l.map Prod.fst).Nodup) :
    l.find? (fun e => decide (e.1 = v)) = some (v, r) := by
  induction l with
  | nil => cases hmem
  | cons e l ih =>
      rw [List.map_cons, List.nodup_cons] at hnd
      rcases List.mem_cons.1 hmem with he | ht
      · rw [← he]
        simp [List.find?_cons_of_pos]
      · have hv : v ∈ l.map Prod.fst := by
          have := List.mem_map_of_mem Prod.fst ht
          simpa using this
        have hne : e.1 ≠ v := fun hh => hnd.1 (hh ▸ hv)
        rw [List.find?_cons_of_neg _ (by simpa using hne)]
        exact ih ht hnd.2

theorem nodup_fst_append_single {β γ : Type} (l : List (β × γ)) (e : β × γ)
    (h : (l.map Prod.fst).Nodup) (he : e.1 ∉ l.map Prod.fst) :
    ((l ++ [e]).map Prod.fst).Nodup := by
  rw [List.map_append, List.nodup_append]
  refine ⟨h, by simp, ?_⟩
  intro x hx
  simp only [List.map_cons, List.map_nil, List.mem_singleton]
  intro hxe
  exact he (hxe ▸ hx)

theorem any_eq_false_not_mem_fst {γ : Type} (l : List (Val × γ)) (d : Val)
    (h : l.any (fun e => decide (e.1 = d)) = false) : d ∉ l.map Prod.fst := by
  intro hmem
  rcases List.mem_map.1 hmem with ⟨e, he, hef⟩
  have := List.any_eq_false.1 h e he
  simp [hef] at this

/-! ## C5: GetRecord lookup behaviour -/

/-- C5 (amended): `DataStorage::GetRecord(name, value, out)` returns false
when `name` is not a declared field; when the field is declared (and the
requested type matches its declared type), it returns false and leaves the
out-handle untouched exactly when `value` is absent from the field's
equality-index map — which can happen even while a live record's payload
still holds `value`, because duplicate index insertions are silently
skipped — and when the index maps `value` to a record it binds the
out-handle to that indexed record and returns true. -/
theorem c5_getRecord_lookup (s : OldStorage) (name : String) (value : Val) :
    (lookupA s.keysMaps name = none → s.getRecord name value = some (false, none)) ∧
    (∀ ty idx, lookupA s.keysMaps name = some (ty, idx) → value.ty = ty →
      (∀ e ∈ idx, e.1 ≠ value) → s.getRecord name value = some (false, none)) ∧
    (∀ ty idx r, lookupA s.keysMaps name = some (ty, idx) → value.ty = ty →
      (value, r) ∈ idx → (idx.map Prod.fst).Nodup →
      s.getRecord name value = some (true, some r)) := by
  refine ⟨fun h => ?_, fun ty idx h hty hnone => ?_, fun ty idx r h hty hmem hnd => ?_⟩
  · simp [OldStorage.getRecord, h]
  · have hf : idx.find? (fun e => decide (e.1 = value)) = none := by
      rw [List.find?_eq_none]
      intro e he
      simpa using hnone e he
    simp [OldStorage.getRecord, h, hty, hf]
  · have hf := find?_of_mem_nodup idx value r hmem hnd
    simp [OldStorage.getRecord, h, hty, hf]

/-- C5 witness: concrete lookups in the state `os4` (two records, index
entry only for value 0 and record 0). -/
theorem c5_getRecord_lookup_witness :
    os4.getRecord "zz" (.vInt 0) = some (false, none) ∧
    os4.getRecord "id" (.vInt (-1)) = some (false, none) ∧
    os4.getRecord "id" (.vInt 0) = some (true, some 0) := by
  refine ⟨?_, ?_, ?_⟩
  · exact (c5_getRecord_lookup os4 "zz" (.vInt 0)).1 (by decide)
  · exact (c5_getRecord_lookup os4 "id" (.vInt (-1))).2.1 .tInt [(.vInt 0, 0)]
      (by decide) (by decide) (by decide)
  · exact (c5_getRecord_lookup os4 "id" (.vInt 0)).2.2 .tInt [(.vInt 0, 0)] 0
      (by decide) (by decide) (by decide) (by decide)

/-- C5 counterexample: in `os4` the live record 1 currently holds -1 in field
"id", yet `GetRecord("id", -1, out)` returns false and leaves the out-handle
untouched — "no record currently holds the requested value" is not what the
code tests; it tests index membership, and record 1's insertion under -1 was
silently skipped at creation because record 0 already occupied that key. -/
theorem c5_getRecord_misses_live_record :
    os4.getRecord "id" (.vInt (-1)) = some (false, none) ∧
    lookupA os4.records 1 = some [("id", ⟨some (.vInt (-1)), none⟩)] ∧
    fieldVal [("id", ⟨some (.vInt (-1)), none⟩)] "id" = some (.vInt (-1)) := by
  decide

/-! ## C10: the prototype equality index is unique-keyed -/

/-- Well-formedness of the prototype engine's indices: every per-field
equality-index map has pairwise-distinct value keys (the structural
guarantee of `std::unordered_map`). -/
def WFold (s : OldStorage) : Prop :=
  ∀ f ty idx, lookupA s.keysMaps f = some (ty, idx) → ((idx.map Prod.fst).Nodup)

theorem wfold_addParam (s : OldStorage) (name : String) (default : Val)
    (h : WFold s) : WFold (s.addParam name default) := by
  intro f ty idx hl
  simp only [OldStorage.addParam] at hl
  rw [emplaceA] at hl
  by_cases hp : (lookupA s.keysMaps name).isSome
  · rw [if_pos hp] at hl
    exact h f ty idx hl
  · rw [if_neg hp] at hl
    cases hc : lookupA s.keysMaps f with
    | some p =>
        rw [lookupA_append_left _ _ _ _ hc] at hl
        have hpe := Option.some.inj hl
        rw [hpe] at hc
        exact h f ty idx hc
    | none =>
        rw [lookupA_append_right _ _ _ hc] at hl
        simp only [lookupA] at hl
        by_cases hnf : name = f
        · rw [if_pos hnf] at hl
          have hpe := Option.some.inj hl
          have hidx : idx = [] := (Prod.mk.injEq _ _ _ _ ▸ hpe).2.symm
          rw [hidx]
          simp
        · rw [if_neg hnf] at hl
          exact absurd hl (by simp)

theorem wfold_oldSeed (rid : RecId) :
    ∀ (fillers : List (String × Val)) (km : List (String × OldIndex)),
      (∀ f ty idx, lookupA km f = some (ty, idx) → ((idx.map Prod.fst).Nodup)) →
      ∀ f ty idx, lookupA (oldSeed rid fillers km) f = some (ty, idx) →
        ((idx.map Prod.fst).Nodup) := by
  intro fillers
  induction fillers with
  | nil =>
      intro km h f ty idx hl
      exact h f ty idx (by simpa [oldSeed] using hl)
  | cons fd rest ih =>
      intro km h f ty idx hl
      obtain ⟨f0, d⟩ := fd
      rw [oldSeed] at hl
      refine ih _ ?_ f ty idx hl
      intro f1 ty1 idx1 hl1
      cases hc : lookupA km f0 with
      | none =>
          simp only [hc] at hl1
          exact h f1 ty1 idx1 hl1
      | some p =>
          obtain ⟨ty0, l0⟩ := p
          simp only [hc] at hl1
          by_cases hany : l0.any (fun e => decide (e.1 = d)) = true
          · rw [if_pos hany] at hl1
            exact h f1 ty1 idx1 hl1
          · rw [if_neg hany] at hl1
            by_cases hf : f1 = f0
            · subst hf
              rw [lookupA_setA_self _ _ _ (by simp [hc])] at hl1
              have hpe := Option.some.inj hl1
              have hidx : idx1 = l0 ++ [(d, rid)] := (Prod.mk.injEq _ _ _ _ ▸ hpe).2.symm
              rw [hidx]
              exact nodup_fst_append_single l0 (d, rid) (h f1 ty0 l0 hc)
                (any_eq_false_not_mem_fst l0 d (Bool.eq_false_iff.2 hany))
            · rw [lookupA_setA_ne _ _ _ _ hf] at hl1
              exact h f1 ty1 idx1 hl1

theorem wfold_createNewRecord (s : OldStorage) (h : WFold s) :
    WFold ((s.createNewRecord).1) := by
  intro f ty idx hl
  exact wfold_oldSeed s.nextId s.fillers s.keysMaps h f ty idx hl

/-- Inversion of a successful `DataStorageRecord::SetData`: the resulting
index map for the touched field is the source's erase-then-maybe-emplace
result. -/
theorem recSetData_keysMaps (s : OldStorage) (rid : RecId) (key : String) (data : Val)
    (s' : OldStorage) (h : s.recSetData rid key data = some s') :
    ∃ ty idx oldv,
      lookupA s.keysMaps key = some (ty, idx) ∧
      s'.keysMaps =
        setA s.keysMaps key
          (ty,
            if (eraseFirst (fun e => decide (e.1 = oldv)) idx).any
                (fun e => decide (e.1 = data)) = true
            then eraseFirst (fun e => decide (e.1 = oldv)) idx
            else eraseFirst (fun e => decide (e.1 = oldv)) idx ++ [(data, rid)]) := by
  unfold OldStorage.recSetData at h
  cases hk : lookupA s.keysMaps key with
  | none =>
      rw [hk] at h
      simp at h
  | some p =>
      obtain ⟨ty, idx⟩ := p
      rw [hk] at h
      simp only at h
      by_cases hty : data.ty ≠ ty
      · rw [if_pos hty] at h
        simp at h
      · rw [if_neg hty] at h
        cases ho : (lookupA s.records rid).bind (fun pl => fieldVal pl key) with
        | none =>
            rw [ho] at h
            simp at h
        | some oldv =>
            rw [ho] at h
            simp only at h
            by_cases hoty : oldv.ty ≠ data.ty
            · rw [if_pos hoty] at h
              simp at h
            · rw [if_neg hoty] at h
              cases hfind : idx.find? (fun e => decide (e.1 = oldv)) with
              | none =>
                  rw [hfind] at h
                  simp at h
              | some victim =>
                  rw [hfind] at h
                  simp only at h
                  cases hvic : lookupA s.records victim.2 with
                  | none =>
                      rw [hvic] at h
                      simp at h
                  | some vicPl =>
                      rw [hvic] at h
                      simp only at h
                      refine ⟨ty, idx, oldv, rfl, ?_⟩
                      have hse := Option.some.inj h
                      rw [← hse]

theorem wfold_recSetData (s : OldStorage) (rid : RecId) (key : String) (data : Val)
    (s' : OldStorage) (h : WFold s) (hr : s.recSetData rid key data = some s') :
    WFold s' := by
  obtain ⟨ty0, idx, oldv, hk, hkm⟩ := recSetData_keysMaps s rid key data s' hr
  intro f ty2 idx2 hl
  rw [hkm] at hl
  by_cases hf : f = key
  · subst hf
    rw [lookupA_setA_self _ _ _ (by simp [hk])] at hl
    have hpe := Option.some.inj hl
    have hidx := (Prod.mk.injEq _ _ _ _ ▸ hpe).2.symm
    have hnd : (((eraseFirst (fun e => decide (e.1 = oldv)) idx).map Prod.fst).Nodup) :=
      List.Nodup.sublist ((eraseFirst_sublist _ idx).map Prod.fst) (h f ty0 idx hk)
    rw [hidx]
    by_cases hany : (eraseFirst (fun e => decide (e.1 = oldv)) idx).any
        (fun e => decide (e.1 = data)) = true
    · rw [if_pos hany]
      exact hnd
    · rw [if_neg hany]
      exact nodup_fst_append_single _ (data, rid) hnd
        (any_eq_false_not_mem_fst _ data (Bool.eq_false_iff.2 hany))
  · rw [lookupA_setA_ne _ _ _ _ hf] at hl
    exact h f ty2 idx2 hl

/-- C10: each per-field equality index of the prototype engine is a
unique-keyed map — at most one record is registered under any value — and
this is preserved by `AddParam`, `CreateNewRecord` and `SetData` (whose
insertions are silently skipped when the value is already a key, as the
final conjunct shows for the record filler); consequently `GetRecord`
resolves a (field, value) pair to at most one record: the unique indexed
holder. -/
theorem c10_unique_index (s s' : OldStorage) (name key : String)
    (default data value : Val) (rid : RecId) :
    (WFold s → WFold (s.addParam name default)) ∧
    (WFold s → WFold ((s.createNewRecord).1)) ∧
    (WFold s → s.recSetData rid key data = some s' → WFold s') ∧
    (WFold s → ∀ ty idx r1 r2, lookupA s.keysMaps key = some (ty, idx) →
      (value, r1) ∈ idx → (value, r2) ∈ idx → r1 = r2) ∧
    (WFold s → ∀ ty idx r, lookupA s.keysMaps key = some (ty, idx) → value.ty = ty →
      (value, r) ∈ idx → s.getRecord key value = some (true, some r)) ∧
    (∀ ty idx, lookupA s.keysMaps key = some (ty, idx) →
      idx.any (fun e => decide (e.1 = default)) = true →
      oldSeed rid [(key, default)] s.keysMaps = s.keysMaps) := by
  refine ⟨wfold_addParam s name default, wfold_createNewRecord s,
    wfold_recSetData s rid key data s', fun h ty idx r1 r2 hk h1 h2 => ?_,
    fun h ty idx r hk hty hmem => ?_, fun ty idx hk hany => ?_⟩
  · exact nodup_fst_unique idx (h key ty idx hk) value r1 r2 h1 h2
  · have hf := find?_of_mem_nodup idx value r hmem (h key ty idx hk)
    simp [OldStorage.getRecord, hk, hty, hf]
  · simp [oldSeed, hk, hany]

/-- C10 witness: the invariant established through the concrete build-up of
`os4` and a concrete unique resolution. -/
theorem c10_unique_index_witness :
    WFold os4 ∧ os4.getRecord "id" (.vInt 0) = some (true, some 0) := by
  have h0 : WFold os0 := by
    intro f ty idx hl
    simp [os0, lookupA] at hl
  have h1 : WFold os1 :=
    (c10_unique_index os0 os0 "id" "id" (.vInt (-1)) (.vInt 0) (.vInt 0) 0).1 h0
  have h2 : WFold os2 :=
    (c10_unique_index os1 os1 "id" "id" (.vInt (-1)) (.vInt 0) (.vInt 0) 0).2.1 h1
  have h3 : WFold os3 :=
    (c10_unique_index os2 os2 "id" "id" (.vInt (-1)) (.vInt 0) (.vInt 0) 0).2.1 h2
  have h4 : WFold os4 :=
    (c10_unique_index os3 os4 "id" "id" (.vInt (-1)) (.vInt 0) (.vInt 0) 0).2.2.1 h3
      (by decide)
  refine ⟨h4, ?_⟩
  exact (c10_unique_index os4 os4 "id" "id" (.vInt (-1)) (.vInt 0) (.vInt 0) 0).2.2.2.2.1
    h4 .tInt [(.vInt 0, 0)] 0 (by decide) (by decide) (by decide)

/-! ## C9: undeclared field names -/

/-- C9: a field name absent from the schema makes the multi-index engine's
accessors fail cleanly — `DataStorageRecordRef::SetData` returns false with
no state change when either index structure lacks the key,
`DataStorageRecordRef::GetData` returns false leaving the output untouched,
`findByField` and the prototype `GetRecord` report not-found — but the
prototype `DataStorageRecord::SetData` (a `void` function) instead ignores
the failed `KeysMaps` lookup and dereferences the null index-map pointer:
undefined behaviour (`none`), not a false return. -/
theorem c9_undeclared_field (s : OldStorage) (st : NewStorage) (ref : NewRef)
    (rid : RecId) (pl : DHMap) (key : String) (data out : Val) :
    (lookupA st.hashStruct key = none → st.refSetData ref key data = some (st, false)) ∧
    (∀ p, lookupA st.hashStruct key = some p → lookupA st.mapStruct key = none →
      st.refSetData ref key data = some (st, false)) ∧
    (ref.dataRecord = some rid → lookupA st.records rid = some pl → lookupA pl key = none →
      st.refGetData ref key out = some (false, out)) ∧
    (lookupA st.hashStruct key = none → st.findByField key data = (false, none)) ∧
    (lookupA s.keysMaps key = none → s.getRecord key data = some (false, none)) ∧
    (lookupA s.keysMaps key = none → s.recSetData rid key data = none) := by
  refine ⟨fun h => ?_, fun p h1 h2 => ?_, fun hr hrec hpl => ?_, fun h => ?_,
    fun h => ?_, fun h => ?_⟩
  · simp [NewStorage.refSetData, h]
  · obtain ⟨tyH, hm⟩ := p
    simp [NewStorage.refSetData, h1, h2]
  · simp [NewStorage.refGetData, hr, hrec, DHMap.getData, hpl]
  · simp [NewStorage.findByField, h]
  · simp [OldStorage.getRecord, h]
  · simp [OldStorage.recSetData, h]

/-- C9 witness: concrete accesses through the undeclared field name "zz",
plus one state whose equality structure has a key its ordering structure
lacks. -/
theorem c9_undeclared_field_witness :
    ns3.refSetData ref1 "zz" (.vInt 1) = some (ns3, false) ∧
    NewStorage.refSetData ⟨[], [("k", (.tInt, []))], [], [], 0⟩ ⟨some 0, true⟩ "k" (.vInt 1)
      = some (⟨[], [("k", (.tInt, []))], [], [], 0⟩, false) ∧
    ns3.refGetData ref1 "zz" (.vInt 0) = some (false, .vInt 0) ∧
    ns3.findByField "zz" (.vInt 1) = (false, none) ∧
    os4.getRecord "zz" (.vInt 1) = some (false, none) ∧
    os4.recSetData 0 "zz" (.vInt 1) = none := by
  refine ⟨?_, ?_, ?_, ?_, ?_, ?_⟩
  · exact (c9_undeclared_field os0 ns3 ref1 0 [] "zz" (.vInt 1) (.vInt 0)).1 (by decide)
  · exact (c9_undeclared_field os0 ⟨[], [("k", (.tInt, []))], [], [], 0⟩ ⟨some 0, true⟩
      0 [] "k" (.vInt 1) (.vInt 0)).2.1 (.tInt, []) (by decide) (by decide)
  · exact (c9_undeclared_field os0 ns3 ref1 0 [("id", ⟨some (.vInt 0), none⟩)] "zz"
      (.vInt 1) (.vInt 0)).2.2.1 (by decide) (by decide) (by decide)
  · exact (c9_undeclared_field os0 ns3 ref1 0 [] "zz" (.vInt 1) (.vInt 0)).2.2.2.1 (by decide)
  · exact (c9_undeclared_field os4 ns0 ref1 0 [] "zz" (.vInt 1) (.vInt 0)).2.2.2.2.1 (by decide)
  · exact (c9_undeclared_field os4 ns0 ref1 0 [] "zz" (.vInt 1) (.vInt 0)).2.2.2.2.2 (by decide)

/-! ## Entry-count lemmas for the multi-index engine -/

theorem entryIs_iff (v : Val) (r : RecId) (e : Val × RecId) :
    entryIs v r e = true ↔ e.1 = v ∧ e.2 = r := by
  simp [entryIs]

theorem cnt_append (l l' : Bucket) (v : Val) (r : RecId) :
    cnt (l ++ l') v r = cnt l v r + cnt l' v r := by
  simp [cnt, List.filter_append]

theorem cnt_single (v w : Val) (r r' : RecId) :
    cnt [(w, r')] v r = if w = v ∧ r' = r then 1 else 0 := by
  by_cases h : w = v ∧ r' = r
  · obtain ⟨h1, h2⟩ := h
    subst h1
    subst h2
    simp [cnt, List.filter, entryIs]
  · rw [if_neg h]
    rcases Decidable.not_and_iff_or_not.1 h with h1 | h1 <;>
      simp [cnt, List.filter, entryIs, h1]

theorem cnt_cons (e : Val × RecId) (l : Bucket) (v : Val) (r : RecId) :
    cnt (e :: l) v r = (if entryIs v r e then 1 else 0) + cnt l v r := by
  by_cases h : entryIs v r e
  · simp [cnt, List.filter_cons, h, Nat.add_comm]
  · simp [cnt, List.filter_cons, h]

theorem cnt_eraseFirst_self (l : Bucket) (v : Val) (r : RecId) :
    cnt (eraseFirst (entryIs v r) l) v r = cnt l v r - 1 := by
  induction l with
  | nil => simp [eraseFirst, cnt]
  | cons e l ih =>
      by_cases h : entryIs v r e
      · rw [show eraseFirst (entryIs v r) (e :: l) = l from by simp [eraseFirst, h]]
        rw [cnt_cons, if_pos h]
        omega
      · rw [show eraseFirst (entryIs v r) (e :: l) = e :: eraseFirst (entryIs v r) l from
          by simp [eraseFirst, h]]
        rw [cnt_cons, cnt_cons, if_neg h, ih]
        omega

theorem cnt_eraseFirst_other (l : Bucket) (v w : Val) (r r' : RecId)
    (h : ¬(v = w ∧ r = r')) : cnt (eraseFirst (entryIs v r) l) w r' = cnt l w r' := by
  induction l with
  | nil => simp [eraseFirst]
  | cons e l ih =>
      by_cases hp : entryIs v r e
      · have he := (entryIs_iff v r e).1 hp
        have hne : entryIs w r' e = false := by
          rw [Bool.eq_false_iff]
          intro hc
          have hc' := (entryIs_iff w r' e).1 hc
          exact h ⟨he.1 ▸ hc'.1.symm ▸ rfl, he.2 ▸ hc'.2.symm ▸ rfl⟩
        simp only [eraseFirst, if_pos hp, cnt_cons, hne]
        simp
      · simp only [eraseFirst, if_neg hp, cnt_cons, ih]

theorem cnt_pos_of_mem (l : Bucket) (e : Val × RecId) (he : e ∈ l) :
    1 ≤ cnt l e.1 e.2 := by
  have hm : e ∈ l.filter (entryIs e.1 e.2) :=
    List.mem_filter.2 ⟨he, by simp [entryIs]⟩
  exact List.length_pos_of_mem hm

theorem not_mem_of_cnt_zero (l : Bucket) (v : Val) (r : RecId)
    (h : cnt l v r = 0) : (v, r) ∉ l := by
  intro hmem
  have hp := cnt_pos_of_mem l (v, r) hmem
  simp only at hp
  omega

/-- Relocating a record's unique index entry: when a record has exactly one
entry (under `oldv`), erasing it and appending `(data, rid)` leaves the
record with exactly one entry, under `data`. -/
theorem cnt_relocate (l : Bucket) (oldv data : Val) (rid : RecId)
    (hcnt : ∀ w, cnt l w rid = if w = oldv then 1 else 0) :
    ∀ w, cnt (eraseFirst (entryIs oldv rid) l ++ [(data, rid)]) w rid
      = if w = data then 1 else 0 := by
  intro w
  rw [cnt_append]
  have herase : cnt (eraseFirst (entryIs oldv rid) l) w rid = 0 := by
    by_cases hw : w = oldv
    · subst hw
      rw [cnt_eraseFirst_self, hcnt w]
      simp
    · rw [cnt_eraseFirst_other l oldv w rid rid (fun hc => hw hc.1.symm), hcnt w]
      simp [hw]
  rw [herase, cnt_single]
  by_cases hw : w = data
  · subst hw
    simp
  · rw [if_neg (fun hc : data = w ∧ rid = rid => hw hc.1.symm), if_neg hw]

/-! ## Payload update lemmas -/

theorem lookupA_setData_self (pl : DHMap) (key : String) (v : Val) (d : Option Nat) :
    lookupA (pl.setData key v d) key = some ⟨some v, d⟩ := by
  unfold DHMap.setData
  cases h : lookupA pl key with
  | none =>
      rw [lookupA_append_right _ _ _ h]
      simp [lookupA]
  | some sv =>
      exact lookupA_setA_self _ _ _ (by simp [h])

theorem lookupA_setData_ne (pl : DHMap) (key f : String) (v : Val) (d : Option Nat)
    (hf : f ≠ key) : lookupA (pl.setData key v d) f = lookupA pl f := by
  unfold DHMap.setData
  cases h : lookupA pl key with
  | none =>
      cases h2 : lookupA pl f with
      | some a => exact lookupA_append_left _ _ _ _ h2
      | none =>
          rw [lookupA_append_right _ _ _ h2]
          have hkf : ¬key = f := fun hc => hf hc.symm
          simp [lookupA, hkf]
  | some sv => exact lookupA_setA_ne _ _ _ _ hf

theorem fieldVal_setData_self (pl : DHMap) (key : String) (v : Val) (d : Option Nat) :
    fieldVal (pl.setData key v d) key = some v := by
  unfold fieldVal
  rw [lookupA_setData_self]
  rfl

theorem fieldVal_setData_ne (pl : DHMap) (key f : String) (v : Val) (d : Option Nat)
    (hf : f ≠ key) : fieldVal (pl.setData key v d) f = fieldVal pl f := by
  unfold fieldVal
  rw [lookupA_setData_ne pl key f v d hf]

/-! ## Inversion of a successful RecordRef SetData -/

/-- A successful `DataStorageRecordRef::SetData` call determines the whole
resulting state: both structures had the key with matching types, the record
was live with a typed current value, and the result relocates the record's
entry in both indices and overwrites the payload field. -/
theorem refSetData_some_true (s : NewStorage) (ref : NewRef) (key : String) (data : Val)
    (s' : NewStorage) (h : s.refSetData ref key data = some (s', true)) :
    ∃ tyH hm tyM mm rid pl oldv,
      lookupA s.hashStruct key = some (tyH, hm) ∧
      lookupA s.mapStruct key = some (tyM, mm) ∧
      data.ty = tyH ∧ data.ty = tyM ∧
      ref.dataRecord = some rid ∧
      lookupA s.records rid = some pl ∧
      fieldVal pl key = some oldv ∧
      oldv.ty = data.ty ∧
      s' = { s with
        hashStruct := setA s.hashStruct key
          (tyH, eraseFirst (entryIs oldv rid) hm ++ [(data, rid)])
        mapStruct := setA s.mapStruct key
          (tyM, eraseFirst (entryIs oldv rid) mm ++ [(data, rid)])
        records := setA s.records rid (pl.setData key data none) } := by
  unfold NewStorage.refSetData at h
  cases hh : lookupA s.hashStruct key with
  | none =>
      rw [hh] at h
      simp at h
  | some p =>
      obtain ⟨tyH, hm⟩ := p
      cases hq : lookupA s.mapStruct key with
      | none =>
          rw [hh, hq] at h
          simp at h
      | some q =>
          obtain ⟨tyM, mm⟩ := q
          rw [hh, hq] at h
          simp only at h
          by_cases htyH : data.ty ≠ tyH
          · rw [if_pos htyH] at h
            simp at h
          · rw [if_neg htyH] at h
            by_cases htyM : data.ty ≠ tyM
            · rw [if_pos htyM] at h
              simp at h
            · rw [if_neg htyM] at h
              cases hr : ref.dataRecord with
              | none =>
                  rw [hr] at h
                  simp at h
              | some rid =>
                  rw [hr] at h
                  simp only at h
                  cases hpl : lookupA s.records rid with
                  | none =>
                      rw [hpl] at h
                      simp at h
                  | some pl =>
                      rw [hpl] at h
                      simp only at h
                      cases hold : fieldVal pl key with
                      | none =>
                          rw [hold] at h
                          simp at h
                      | some oldv =>
                          rw [hold] at h
                          simp only at h
                          by_cases hoty : oldv.ty ≠ data.ty
                          · rw [if_pos hoty] at h
                            simp at h
                          · rw [if_neg hoty] at h
                            refine ⟨tyH, hm, tyM, mm, rid, pl, oldv, rfl, rfl,
                              Decidable.not_not.1 htyH, Decidable.not_not.1 htyM,
                              rfl, hpl, hold, Decidable.not_not.1 hoty, ?_⟩
                            have hse := Option.some.inj h
                            exact ((Prod.mk.injEq _ _ _ _ ▸ hse).1).symm

/-! ## C4: operations on an invalidated ref -/

/-- C4: the claim says every operation on a ref whose validity flag is false
is a no-op returning false that never touches the released record storage.
In the source, neither `SetData` nor `GetData` reads
`IsDataStorageRecordValid` — the model shows both are insensitive to the
flag — so on a destroyed record (`dsGone`, flag read false) they dereference
the dangling record pointer (`none`, undefined behaviour) instead of
returning false. -/
theorem c4_validity_flag_ignored :
    (∀ (s : NewStorage) (r : Option RecId) (b : Bool) (key : String) (data out : Val),
      s.refSetData ⟨r, b⟩ key data = s.refSetData ⟨r, true⟩ key data ∧
      s.refGetData ⟨r, b⟩ key out = s.refGetData ⟨r, true⟩ key out) ∧
    refDead.valid = false ∧
    dsGone.refSetData refDead "id" (.vInt 1) = none ∧
    dsGone.refGetData refDead "id" (.vInt 0) = none := by
  exact ⟨fun s r b key data out => ⟨rfl, rfl⟩, rfl, by decide, by decide⟩

/-! ## C2: the steps of a successful RecordRef SetData -/

/-- C2: a successful `DataStorageRecordRef::SetData(key, data)` reads the
record's current value `oldv`, erases the one entry `(oldv, thisRecord)`
from the equality-index bucket and from the ordering-index bucket, inserts
`(data, thisRecord)` into both, and overwrites the field in the record
payload; afterwards both indices hold exactly one entry for this record,
keyed by the new value, and no entry for this record keyed by the old value
remains. -/
theorem c2_refSetData_steps (s : NewStorage) (ref : NewRef) (key : String)
    (data oldv : Val) (rid : RecId) (tyH tyM : Ty) (hm mm : Bucket) (pl : DHMap)
    (hh : lookupA s.hashStruct key = some (tyH, hm))
    (hmp : lookupA s.mapStruct key = some (tyM, mm))
    (htyH : data.ty = tyH) (htyM : data.ty = tyM)
    (hr : ref.dataRecord = some rid)
    (hpl : lookupA s.records rid = some pl)
    (hold : fieldVal pl key = some oldv)
    (hoty : oldv.ty = data.ty)
    (hcntH : ∀ w, cnt hm w rid = if w = oldv then 1 else 0)
    (hcntM : ∀ w, cnt mm w rid = if w = oldv then 1 else 0) :
    ∃ s',
      s.refSetData ref key data = some (s', true) ∧
      lookupA s'.hashStruct key
        = some (tyH, eraseFirst (entryIs oldv rid) hm ++ [(data, rid)]) ∧
      lookupA s'.mapStruct key
        = some (tyM, eraseFirst (entryIs oldv rid) mm ++ [(data, rid)]) ∧
      (∀ w, cnt (eraseFirst (entryIs oldv rid) hm ++ [(data, rid)]) w rid
        = if w = data then 1 else 0) ∧
      (∀ w, cnt (eraseFirst (entryIs oldv rid) mm ++ [(data, rid)]) w rid
        = if w = data then 1 else 0) ∧
      (oldv ≠ data →
        cnt (eraseFirst (entryIs oldv rid) hm ++ [(data, rid)]) oldv rid = 0 ∧
        cnt (eraseFirst (entryIs oldv rid) mm ++ [(data, rid)]) oldv rid = 0) ∧
      ∃ pl', lookupA s'.records rid = some pl' ∧ fieldVal pl' key = some data := by
  refine ⟨{ s with
      hashStruct := setA s.hashStruct key
        (tyH, eraseFirst (entryIs oldv rid) hm ++ [(data, rid)])
      mapStruct := setA s.mapStruct key
        (tyM, eraseFirst (entryIs oldv rid) mm ++ [(data, rid)])
      records := setA s.records rid (pl.setData key data none) }, ?_, ?_, ?_,
    cnt_relocate hm oldv data rid hcntH, cnt_relocate mm oldv data rid hcntM,
    fun hne => ?_, pl.setData key data none, ?_, fieldVal_setData_self pl key data none⟩
  · unfold NewStorage.refSetData
    simp only [hh, hmp]
    rw [if_neg (by simp [htyH]), if_neg (by simp [htyM])]
    simp only [hr, hpl, hold]
    rw [if_neg (by simp [hoty])]
  · exact lookupA_setA_self _ _ _ (by simp [hh])
  · exact lookupA_setA_self _ _ _ (by simp [hmp])
  · constructor
    · rw [cnt_relocate hm oldv data rid hcntH oldv]
      simp [hne]
    · rw [cnt_relocate mm oldv data rid hcntM oldv]
      simp [hne]
  · exact lookupA_setA_self _ _ _ (by simp [hpl])

/-- C2 witness: `ref1.SetData("id", 5)` in the two-record state `ns3`. -/
theorem c2_refSetData_steps_witness :
    ∃ s',
      ns3.refSetData ref1 "id" (.vInt 5) = some (s', true) ∧
      lookupA s'.hashStruct "id"
        = some (.tInt, eraseFirst (entryIs (.vInt 0) 0) [(.vInt 0, 0), (.vInt 0, 1)]
            ++ [(.vInt 5, 0)]) ∧
      lookupA s'.mapStruct "id"
        = some (.tInt, eraseFirst (entryIs (.vInt 0) 0) [(.vInt 0, 0), (.vInt 0, 1)]
            ++ [(.vInt 5, 0)]) ∧
      (∀ w, cnt (eraseFirst (entryIs (.vInt 0) 0) [(.vInt 0, 0), (.vInt 0, 1)]
          ++ [(.vInt 5, 0)]) w 0 = if w = .vInt 5 then 1 else 0) ∧
      (∀ w, cnt (eraseFirst (entryIs (.vInt 0) 0) [(.vInt 0, 0), (.vInt 0, 1)]
          ++ [(.vInt 5, 0)]) w 0 = if w = .vInt 5 then 1 else 0) ∧
      (Val.vInt 0 ≠ Val.vInt 5 →
        cnt (eraseFirst (entryIs (.vInt 0) 0) [(.vInt 0, 0), (.vInt 0, 1)]
          ++ [(.vInt 5, 0)]) (.vInt 0) 0 = 0 ∧
        cnt (eraseFirst (entryIs (.vInt 0) 0) [(.vInt 0, 0), (.vInt 0, 1)]
          ++ [(.vInt 5, 0)]) (.vInt 0) 0 = 0) ∧
      ∃ pl', lookupA s'.records 0 = some pl' ∧ fieldVal pl' "id" = some (.vInt 5) := by
  refine c2_refSetData_steps ns3 ref1 "id" (.vInt 5) (.vInt 0) 0 .tInt .tInt
    [(.vInt 0, 0), (.vInt 0, 1)] [(.vInt 0, 0), (.vInt 0, 1)]
    [("id", ⟨some (.vInt 0), none⟩)] (by decide) (by decide) (by decide) (by decide)
    (by decide) (by decide) (by decide) (by decide) ?_ ?_ <;>
  · intro w
    by_cases hw : w = .vInt 0
    · subst hw
      decide
    · have hne : Val.vInt 0 ≠ w := fun hc => hw hc.symm
      simp [cnt, entryIs, hne, hw]

/-! ## C8: SetData/GetData round trip -/

/-- C8: after a successful `RecordRef::SetData(f, v)`, a `GetData(f, out)`
through any ref bound to the same record succeeds and stores exactly `v` in
the (same-typed) output argument. -/
theorem refGetData_eq (s : NewStorage) (ref : NewRef) (key : String) (out : Val)
    (rid : RecId) (pl : DHMap) (hr : ref.dataRecord = some rid)
    (hpl : lookupA s.records rid = some pl) :
    s.refGetData ref key out = some (pl.getData key out) := by
  unfold NewStorage.refGetData
  simp only [hr, hpl]

theorem c8_roundtrip (s s' : NewStorage) (ref ref' : NewRef) (f : String)
    (v out : Val) (h : s.refSetData ref f v = some (s', true))
    (href : ref'.dataRecord = ref.dataRecord) (hout : out.ty = v.ty) :
    s'.refGetData ref' f out = some (true, v) := by
  obtain ⟨tyH, hm, tyM, mm, rid, pl, oldv, hh, hmp, _, _, hr, hpl, hold, _, hs'⟩ :=
    refSetData_some_true s ref f v s' h
  have hr' : ref'.dataRecord = some rid := href.trans hr
  have hrec2 : lookupA s'.records rid = some (pl.setData f v none) := by
    rw [hs']
    exact lookupA_setA_self _ _ _ (by simp [hpl])
  rw [refGetData_eq s' ref' f out rid _ hr' hrec2]
  unfold DHMap.getData
  rw [lookupA_setData_self]
  simp [DataSaver.getData, hout]

/-- C8 witness: set "id" to 5 on record 0 in `ns3`, then read it back. -/
theorem c8_roundtrip_witness :
    ns4.refGetData ref1 "id" (.vInt 0) = some (true, .vInt 5) :=
  c8_roundtrip ns3 ns4 ref1 ref1 "id" (.vInt 5) (.vInt 0) (by decide) rfl (by decide)

/-! ## C1: invariant machinery for the multi-index engine -/

theorem entryIs_eq_iff (v : Val) (r : RecId) (e : Val × RecId) :
    entryIs v r e = true ↔ e = (v, r) := by
  rw [entryIs_iff, Prod.ext_iff]

theorem cnt_eq_zero_iff (l : Bucket) (w : Val) (r : RecId) :
    cnt l w r = 0 ↔ (w, r) ∉ l := by
  rw [cnt, List.length_eq_zero, List.filter_eq_nil_iff]
  constructor
  · intro h hmem
    exact h (w, r) hmem (by simp [entryIs])
  · intro h e he hp
    have he2 := (entryIs_eq_iff w r e).1 hp
    exact h (he2 ▸ he)

theorem mem_of_cnt_ne_zero (l : Bucket) (v : Val) (r : RecId)
    (h : cnt l v r ≠ 0) : (v, r) ∈ l := by
  by_contra hmem
  exact h ((cnt_eq_zero_iff l v r).2 hmem)

theorem lookupA_some_mem_fst {κ α : Type} [DecidableEq κ] (l : List (κ × α)) (key : κ)
    (a : α) (h : lookupA l key = some a) : key ∈ l.map Prod.fst := by
  by_contra hmem
  rw [(lookupA_eq_none_iff l key).2 hmem] at h
  cases h

theorem lookupA_emplaceA_ne {κ α : Type} [DecidableEq κ] (l : List (κ × α)) (key f : κ)
    (a : α) (hf : f ≠ key) : lookupA (emplaceA l key a) f = lookupA l f := by
  unfold emplaceA
  by_cases hp : (lookupA l key).isSome
  · rw [if_pos hp]
  · rw [if_neg hp]
    cases h2 : lookupA l f with
    | some b => exact lookupA_append_left _ _ _ _ h2
    | none =>
        rw [lookupA_append_right _ _ _ h2]
        have hkf : ¬key = f := fun hc => hf hc.symm
        simp [lookupA, hkf]

theorem lookupA_emplaceA_absent {κ α : Type} [DecidableEq κ] (l : List (κ × α)) (key : κ)
    (a : α) (h : lookupA l key = none) : lookupA (emplaceA l key a) key = some a := by
  unfold emplaceA
  rw [if_neg (by simp [h]), lookupA_append_right _ _ _ h]
  simp [lookupA]

theorem lookupA_emplaceA_present {κ α : Type} [DecidableEq κ] (l : List (κ × α)) (key : κ)
    (a b : α) (h : lookupA l key = some b) : lookupA (emplaceA l key a) key = some b := by
  unfold emplaceA
  rw [if_pos (by simp [h])]
  exact h

theorem emplaceA_nodup_fst {κ α : Type} [DecidableEq κ] (l : List (κ × α)) (key : κ)
    (a : α) (h : (l.map Prod.fst).Nodup) : ((emplaceA l key a).map Prod.fst).Nodup := by
  unfold emplaceA
  by_cases hp : (lookupA l key).isSome
  · rw [if_pos hp]
    exact h
  · rw [if_neg hp]
    refine nodup_fst_append_single l (key, a) h ?_
    rw [← lookupA_eq_none_iff]
    cases hc : lookupA l key with
    | none => rfl
    | some b => exact absurd (by simp [hc]) hp

/-- Characterization of the createRecord seeding pass: provided the template
has pairwise-distinct field names, field `f`'s bucket gains exactly the one
entry `(default-of-f, rid)` when `f` is a template field with a stored
default, and is untouched otherwise. -/
theorem seedAll_lookupA (rid : RecId) :
    ∀ (tmpl : DHMap) (st : List (String × (Ty × Bucket))) (f : String),
      (tmpl.map Prod.fst).Nodup →
      lookupA (seedAll rid tmpl st) f =
        match (lookupA tmpl f).bind DataSaver.val, lookupA st f with
        | some d, some p => some (p.1, p.2 ++ [(d, rid)])
        | some _, none => none
        | none, _ => lookupA st f := by
  intro tmpl
  induction tmpl with
  | nil =>
      intro st f _
      simp [seedAll, lookupA]
  | cons e rest ih =>
      intro st f hnd
      obtain ⟨f0, sv⟩ := e
      rw [List.map_cons, List.nodup_cons] at hnd
      rw [seedAll, ih _ f hnd.2]
      by_cases hf : f0 = f
      · subst hf
        have hrest : lookupA rest f0 = none := (lookupA_eq_none_iff _ _).2 hnd.1
        have hhead : lookupA ((f0, sv) :: rest) f0 = some sv := by simp [lookupA]
        rw [hrest, hhead]
        simp only [Option.none_bind, Option.some_bind]
        cases hsv : sv.val with
        | none => simp
        | some d =>
            cases hst : lookupA st f0 with
            | none => simp [seedField, hst]
            | some p =>
                obtain ⟨ty, l⟩ := p
                simp only [seedField, hst]
                rw [lookupA_setA_self _ _ _ (by simp [hst])]
      · have hskip : lookupA ((f0, sv) :: rest) f = lookupA rest f := by
          simp [lookupA, hf]
        rw [hskip]
        have hstep : lookupA
            (match sv.val with
             | some d => seedField st f0 d rid
             | none => st) f = lookupA st f := by
          cases hsv : sv.val with
          | none => rfl
          | some d =>
              simp only [seedField]
              cases hst : lookupA st f0 with
              | none => rfl
              | some p =>
                  obtain ⟨ty, l⟩ := p
                  exact lookupA_setA_ne _ _ _ _ (fun hc => hf hc.symm)
        rw [hstep]

/-- A `RecordRef::SetData` that returns false changes nothing. -/
theorem refSetData_some_false (s : NewStorage) (ref : NewRef) (key : String)
    (data : Val) (s' : NewStorage)
    (h : s.refSetData ref key data = some (s', false)) : s' = s := by
  unfold NewStorage.refSetData at h
  cases hh : lookupA s.hashStruct key with
  | none =>
      rw [hh] at h
      simp at h
      exact h.symm
  | some p =>
      obtain ⟨tyH, hm⟩ := p
      cases hq : lookupA s.mapStruct key with
      | none =>
          rw [hh, hq] at h
          simp at h
          exact h.symm
      | some q =>
          obtain ⟨tyM, mm⟩ := q
          rw [hh, hq] at h
          simp only at h
          by_cases htyH : Val.ty data ≠ tyH
          · rw [if_pos htyH] at h
            simp at h
          · rw [if_neg htyH] at h
            by_cases htyM : Val.ty data ≠ tyM
            · rw [if_pos htyM] at h
              simp at h
            · rw [if_neg htyM] at h
              cases hr : ref.dataRecord with
              | none =>
                  rw [hr] at h
                  simp at h
              | some rid =>
                  rw [hr] at h
                  simp only at h
                  cases hpl : lookupA s.records rid with
                  | none =>
                      rw [hpl] at h
                      simp at h
                  | some pl =>
                      rw [hpl] at h
                      simp only at h
                      cases hold : fieldVal pl key with
                      | none =>
                          rw [hold] at h
                          simp at h
                      | some oldv =>
                          rw [hold] at h
                          simp only at h
                          by_cases hoty : Val.ty oldv ≠ Val.ty data
                          · rw [if_pos hoty] at h
                            simp at h
                          · rw [if_neg hoty] at h
                            simp at h

/-- Per-structure half of the engine invariant: (a) every live record has,
for every indexed field, exactly one bucket entry, keyed by the record's
current value of the field; (b) every bucket entry points to a live record
whose current value of the field is the entry's key. -/
def StructOk (records : List (RecId × DHMap))
    (st : List (String × (Ty × Bucket))) : Prop :=
  (∀ r pl, lookupA records r = some pl → ∀ f ty l, lookupA st f = some (ty, l) →
    ∀ v, fieldVal pl f = some v → ∀ w, cnt l w r = if w = v then 1 else 0) ∧
  (∀ f ty l, lookupA st f = some (ty, l) → ∀ e, e ∈ l →
    ∃ pl, lookupA records e.2 = some pl ∧ fieldVal pl f = some e.1)

/-- The multi-index engine invariant: the schema template has distinct,
value-carrying fields whose declared types agree with both index
structures, record identifiers are fresh below `nextId`, every live record
carries a correctly-typed value for every declared field, and both the
equality and the ordering index satisfy `StructOk` — in particular each
contains exactly one entry per live record per declared field. -/
structure EngineInv (s : NewStorage) : Prop where
  tmpl_nodup : (s.template.map Prod.fst).Nodup
  tmpl_some : ∀ f sv, lookupA s.template f = some sv → ∃ v, sv.val = some v
  tmpl_ty : ∀ f, ((lookupA s.template f).bind DataSaver.val).map Val.ty
      = (lookupA s.hashStruct f).map Prod.fst
  map_ty : ∀ f, (lookupA s.mapStruct f).map Prod.fst
      = (lookupA s.hashStruct f).map Prod.fst
  ids_lt : ∀ r, r ∈ s.records.map Prod.fst → r < s.nextId
  rec_val : ∀ r pl, lookupA s.records r = some pl → ∀ f ty l,
      lookupA s.hashStruct f = some (ty, l) → ∃ v, fieldVal pl f = some v ∧ v.ty = ty
  hOk : StructOk s.records s.hashStruct
  mOk : StructOk s.records s.mapStruct

/-- Seeding a fresh record into an index structure preserves `StructOk`. -/
theorem structOk_seedAll (records : List (RecId × DHMap)) (tmpl : DHMap)
    (st : List (String × (Ty × Bucket))) (rid : RecId)
    (hnd : (tmpl.map Prod.fst).Nodup)
    (hnew : lookupA records rid = none)
    (hok : StructOk records st) :
    StructOk (records ++ [(rid, tmpl)]) (seedAll rid tmpl st) := by
  constructor
  · intro r pl hpl f ty l hl v hv w
    rw [seedAll_lookupA rid tmpl st f hnd] at hl
    cases hb : (lookupA tmpl f).bind DataSaver.val with
    | none =>
        rw [hb] at hl
        cases hro : lookupA records r with
        | some pl0 =>
            rw [lookupA_append_left _ _ _ _ hro] at hpl
            have hpe := Option.some.inj hpl
            subst hpe
            exact hok.1 r pl0 hro f ty l hl v hv w
        | none =>
            rw [lookupA_append_right _ _ _ hro] at hpl
            simp only [lookupA] at hpl
            by_cases hrr : rid = r
            · rw [if_pos hrr] at hpl
              have hpe := Option.some.inj hpl
              subst hpe
              exact absurd (hv.symm.trans hb) (by simp)
            · rw [if_neg hrr] at hpl
              cases hpl
    | some d =>
        rw [hb] at hl
        cases hh : lookupA st f with
        | none =>
            rw [hh] at hl
            cases hl
        | some q =>
            obtain ⟨qty, ql⟩ := q
            rw [hh] at hl
            simp only [Option.some.injEq, Prod.mk.injEq] at hl
            obtain ⟨hty, hll⟩ := hl
            subst hty
            subst hll
            rw [cnt_append, cnt_single]
            cases hro : lookupA records r with
            | some pl0 =>
                rw [lookupA_append_left _ _ _ _ hro] at hpl
                have hpe := Option.some.inj hpl
                subst hpe
                have hne : r ≠ rid := by
                  intro hc
                  rw [hc, hnew] at hro
                  cases hro
                rw [if_neg (fun hc : d = w ∧ rid = r => hne hc.2.symm)]
                have hcc := hok.1 r pl0 hro f qty ql hh v hv w
                omega
            | none =>
                rw [lookupA_append_right _ _ _ hro] at hpl
                simp only [lookupA] at hpl
                by_cases hrr : rid = r
                · rw [if_pos hrr] at hpl
                  have hpe := Option.some.inj hpl
                  subst hpe
                  have hz : cnt ql w r = 0 := by
                    rw [cnt_eq_zero_iff]
                    intro hmem
                    obtain ⟨pl0, h0, _⟩ := hok.2 f qty ql hh (w, r) hmem
                    simp only at h0
                    rw [← hrr, hnew] at h0
                    cases h0
                  rw [hz]
                  have hvd : v = d := Option.some.inj (hv.symm.trans hb)
                  subst hvd
                  by_cases hw : w = v
                  · subst hw
                    rw [if_pos ⟨rfl, hrr⟩, if_pos rfl]
                  · rw [if_neg (fun hc : v = w ∧ rid = r => hw hc.1.symm), if_neg hw]
                · rw [if_neg hrr] at hpl
                  cases hpl
  · intro f ty l hl e he
    rw [seedAll_lookupA rid tmpl st f hnd] at hl
    cases hb : (lookupA tmpl f).bind DataSaver.val with
    | none =>
        rw [hb] at hl
        obtain ⟨pl0, h0, hfv⟩ := hok.2 f ty l hl e he
        exact ⟨pl0, lookupA_append_left _ _ _ _ h0, hfv⟩
    | some d =>
        rw [hb] at hl
        cases hh : lookupA st f with
        | none =>
            rw [hh] at hl
            cases hl
        | some q =>
            obtain ⟨qty, ql⟩ := q
            rw [hh] at hl
            simp only [Option.some.injEq, Prod.mk.injEq] at hl
            obtain ⟨hty, hll⟩ := hl
            subst hty
            subst hll
            rcases List.mem_append.1 he with he1 | he1
            · obtain ⟨pl0, h0, hfv⟩ := hok.2 f qty ql hh e he1
              exact ⟨pl0, lookupA_append_left _ _ _ _ h0, hfv⟩
            · have he2 : e = (d, rid) := by simpa using he1
              subst he2
              refine ⟨tmpl, ?_, hb⟩
              rw [lookupA_append_right _ _ _ hnew]
              simp [lookupA]

/-- Relocating one record's entry (erase the entry under its old value,
append one under the new value, overwrite the payload field) preserves
`StructOk`. -/
theorem structOk_relocate (records : List (RecId × DHMap))
    (st : List (String × (Ty × Bucket))) (key : String) (tyS : Ty) (bucket : Bucket)
    (rid : RecId) (pl : DHMap) (data oldv : Val)
    (hst : lookupA st key = some (tyS, bucket))
    (hpl : lookupA records rid = some pl)
    (hold : fieldVal pl key = some oldv)
    (hok : StructOk records st) :
    StructOk (setA records rid (pl.setData key data none))
      (setA st key (tyS, eraseFirst (entryIs oldv rid) bucket ++ [(data, rid)])) := by
  have hcold : ∀ w, cnt bucket w rid = if w = oldv then 1 else 0 :=
    hok.1 rid pl hpl key tyS bucket hst oldv hold
  constructor
  · intro r pl' hpl' f ty l hl' v hv w
    by_cases hr : r = rid
    · subst hr
      rw [lookupA_setA_self _ _ _ (by simp [hpl])] at hpl'
      have hpe := Option.some.inj hpl'
      subst hpe
      by_cases hf : f = key
      · subst hf
        rw [lookupA_setA_self _ _ _ (by simp [hst])] at hl'
        simp only [Option.some.injEq, Prod.mk.injEq] at hl'
        obtain ⟨hty, hll⟩ := hl'
        subst hty
        subst hll
        rw [fieldVal_setData_self] at hv
        have hvd := Option.some.inj hv
        subst hvd
        exact cnt_relocate bucket oldv data r hcold w
      · rw [lookupA_setA_ne _ _ _ _ hf] at hl'
        rw [fieldVal_setData_ne _ _ _ _ _ hf] at hv
        exact hok.1 r pl hpl f ty l hl' v hv w
    · rw [lookupA_setA_ne _ _ _ _ hr] at hpl'
      by_cases hf : f = key
      · subst hf
        rw [lookupA_setA_self _ _ _ (by simp [hst])] at hl'
        simp only [Option.some.injEq, Prod.mk.injEq] at hl'
        obtain ⟨hty, hll⟩ := hl'
        subst hty
        subst hll
        rw [cnt_append, cnt_single,
          cnt_eraseFirst_other bucket oldv w rid r (fun hc => hr hc.2.symm),
          if_neg (fun hc : data = w ∧ rid = r => hr hc.2.symm)]
        have := hok.1 r pl' hpl' f tyS bucket hst v hv w
        omega
      · rw [lookupA_setA_ne _ _ _ _ hf] at hl'
        exact hok.1 r pl' hpl' f ty l hl' v hv w
  · intro f ty l hl' e he
    by_cases hf : f = key
    · subst hf
      rw [lookupA_setA_self _ _ _ (by simp [hst])] at hl'
      simp only [Option.some.injEq, Prod.mk.injEq] at hl'
      obtain ⟨hty, hll⟩ := hl'
      subst hty
      subst hll
      rcases List.mem_append.1 he with he1 | he1
      · have hemem : e ∈ bucket := (eraseFirst_sublist _ bucket).mem he1
        obtain ⟨pl0, h0, hfv⟩ := hok.2 f tyS bucket hst e hemem
        by_cases he2 : e.2 = rid
        · rw [he2, hpl] at h0
          have hpe := Option.some.inj h0
          subst hpe
          have he1v : e.1 = oldv := by
            have := hfv.symm.trans hold
            exact Option.some.inj this
          have hcz : cnt (eraseFirst (entryIs oldv rid) bucket) oldv rid = 0 := by
            rw [cnt_eraseFirst_self, hcold oldv]
            simp
          have hee : e = (oldv, rid) := Prod.ext he1v he2
          rw [hee] at he1
          exact absurd he1 (not_mem_of_cnt_zero _ _ _ hcz)
        · refine ⟨pl0, ?_, hfv⟩
          rw [lookupA_setA_ne _ _ _ _ he2]
          exact h0
      · have he2 : e = (data, rid) := by simpa using he1
        subst he2
        refine ⟨pl.setData f data none, ?_, ?_⟩
        · exact lookupA_setA_self _ _ _ (by simp [hpl])
        · exact fieldVal_setData_self pl f data none
    · rw [lookupA_setA_ne _ _ _ _ hf] at hl'
      obtain ⟨pl0, h0, hfv⟩ := hok.2 f ty l hl' e he
      by_cases he2 : e.2 = rid
      · rw [he2, hpl] at h0
        have hpe := Option.some.inj h0
        subst hpe
        refine ⟨pl.setData key data none, ?_, ?_⟩
        · rw [he2]
          exact lookupA_setA_self _ _ _ (by simp [hpl])
        · rw [fieldVal_setData_ne _ _ _ _ _ hf]
          exact hfv
      · refine ⟨pl0, ?_, hfv⟩
        rw [lookupA_setA_ne _ _ _ _ he2]
        exact h0

theorem engineInv_addKey (s : NewStorage) (name : String) (d : Val)
    (hinv : EngineInv s) (hrec : s.records = []) : EngineInv (s.addKey name d) := by
  have habs : ∀ (r : RecId) (pl : DHMap), lookupA s.records r = some pl → False := by
    intro r pl h
    rw [hrec] at h
    cases h
  refine ⟨?_, ?_, ?_, ?_, ?_, ?_, ⟨?_, ?_⟩, ⟨?_, ?_⟩⟩
  · exact emplaceA_nodup_fst _ _ _ hinv.tmpl_nodup
  · intro f sv h
    have h' : lookupA (emplaceA s.template name ⟨some d, none⟩) f = some sv := h
    by_cases hf : f = name
    · subst hf
      cases hc : lookupA s.template f with
      | none =>
          rw [lookupA_emplaceA_absent _ _ _ hc] at h'
          have hsv : sv = ⟨some d, none⟩ := (Option.some.inj h').symm
          exact ⟨d, by rw [hsv]⟩
      | some sv0 =>
          rw [lookupA_emplaceA_present _ _ _ _ hc] at h'
          have hsv := Option.some.inj h'
          exact hinv.tmpl_some f sv (hsv ▸ hc)
    · rw [lookupA_emplaceA_ne _ _ _ _ hf] at h'
      exact hinv.tmpl_some f sv h'
  · intro f
    show ((lookupA (emplaceA s.template name ⟨some d, none⟩) f).bind DataSaver.val).map Val.ty
      = (lookupA (emplaceA s.hashStruct name (d.ty, ([] : Bucket))) f).map Prod.fst
    by_cases hf : f = name
    · subst hf
      cases hh : lookupA s.hashStruct f with
      | none =>
          have ht : lookupA s.template f = none := by
            cases hc : lookupA s.template f with
            | none => rfl
            | some sv =>
                obtain ⟨v, hval⟩ := hinv.tmpl_some f sv hc
                have h2 := hinv.tmpl_ty f
                rw [hc, hh, Option.some_bind, hval] at h2
                simp at h2
          rw [lookupA_emplaceA_absent _ _ _ ht, lookupA_emplaceA_absent _ _ _ hh]
          simp
      | some p =>
          have ht : ∃ sv, lookupA s.template f = some sv := by
            cases hc : lookupA s.template f with
            | some sv => exact ⟨sv, rfl⟩
            | none =>
                have h2 := hinv.tmpl_ty f
                rw [hc, hh] at h2
                simp at h2
          obtain ⟨sv, hsv⟩ := ht
          rw [lookupA_emplaceA_present _ _ _ _ hsv, lookupA_emplaceA_present _ _ _ _ hh]
          have h2 := hinv.tmpl_ty f
          rw [hsv, hh] at h2
          exact h2
    · rw [lookupA_emplaceA_ne _ _ _ _ hf, lookupA_emplaceA_ne _ _ _ _ hf]
      exact hinv.tmpl_ty f
  · intro f
    show (lookupA (emplaceA s.mapStruct name (d.ty, ([] : Bucket))) f).map Prod.fst
      = (lookupA (emplaceA s.hashStruct name (d.ty, ([] : Bucket))) f).map Prod.fst
    by_cases hf : f = name
    · subst hf
      cases hh : lookupA s.hashStruct f with
      | none =>
          have hmn : lookupA s.mapStruct f = none := by
            cases hc : lookupA s.mapStruct f with
            | none => rfl
            | some q =>
                have h2 := hinv.map_ty f
                rw [hc, hh] at h2
                simp at h2
          rw [lookupA_emplaceA_absent _ _ _ hmn, lookupA_emplaceA_absent _ _ _ hh]
      | some p =>
          have hmq : ∃ q, lookupA s.mapStruct f = some q := by
            cases hc : lookupA s.mapStruct f with
            | some q => exact ⟨q, rfl⟩
            | none =>
                have h2 := hinv.map_ty f
                rw [hc, hh] at h2
                simp at h2
          obtain ⟨q, hq⟩ := hmq
          rw [lookupA_emplaceA_present _ _ _ _ hq, lookupA_emplaceA_present _ _ _ _ hh]
          have h2 := hinv.map_ty f
          rw [hq, hh] at h2
          exact h2
    · rw [lookupA_emplaceA_ne _ _ _ _ hf, lookupA_emplaceA_ne _ _ _ _ hf]
      exact hinv.map_ty f
  · exact hinv.ids_lt
  · intro r pl h
    exact (habs r pl h).elim
  · intro r pl h
    exact (habs r pl h).elim
  · intro f ty l hl e he
    have hl' : lookupA (emplaceA s.hashStruct name (d.ty, ([] : Bucket))) f
        = some (ty, l) := hl
    by_cases hf : f = name
    · subst hf
      cases hh : lookupA s.hashStruct f with
      | none =>
          rw [lookupA_emplaceA_absent _ _ _ hh] at hl'
          simp only [Option.some.injEq, Prod.mk.injEq] at hl'
          obtain ⟨_, hll⟩ := hl'
          rw [← hll] at he
          cases he
      | some p =>
          rw [lookupA_emplaceA_present _ _ _ _ hh] at hl'
          have hpe := Option.some.inj hl'
          rw [hpe] at hh
          obtain ⟨pl0, h0, _⟩ := hinv.hOk.2 f ty l hh e he
          exact (habs e.2 pl0 h0).elim
    · rw [lookupA_emplaceA_ne _ _ _ _ hf] at hl'
      obtain ⟨pl0, h0, _⟩ := hinv.hOk.2 f ty l hl' e he
      exact (habs e.2 pl0 h0).elim
  · intro r pl h
    exact (habs r pl h).elim
  · intro f ty l hl e he
    have hl' : lookupA (emplaceA s.mapStruct name (d.ty, ([] : Bucket))) f
        = some (ty, l) := hl
    by_cases hf : f = name
    · subst hf
      cases hh : lookupA s.mapStruct f with
      | none =>
          rw [lookupA_emplaceA_absent _ _ _ hh] at hl'
          simp only [Option.some.injEq, Prod.mk.injEq] at hl'
          obtain ⟨_, hll⟩ := hl'
          rw [← hll] at he
          cases he
      | some p =>
          rw [lookupA_emplaceA_present _ _ _ _ hh] at hl'
          have hpe := Option.some.inj hl'
          rw [hpe] at hh
          obtain ⟨pl0, h0, _⟩ := hinv.mOk.2 f ty l hh e he
          exact (habs e.2 pl0 h0).elim
    · rw [lookupA_emplaceA_ne _ _ _ _ hf] at hl'
      obtain ⟨pl0, h0, _⟩ := hinv.mOk.2 f ty l hl' e he
      exact (habs e.2 pl0 h0).elim

theorem engineInv_createRecord (s : NewStorage) (hinv : EngineInv s) :
    EngineInv ((s.createRecord).1) := by
  have hnew : lookupA s.records s.nextId = none := by
    rw [lookupA_eq_none_iff]
    intro hmem
    exact absurd (hinv.ids_lt s.nextId hmem) (lt_irrefl _)
  refine ⟨hinv.tmpl_nodup, hinv.tmpl_some, ?_, ?_, ?_, ?_,
    structOk_seedAll s.records s.template s.hashStruct s.nextId hinv.tmpl_nodup hnew
      hinv.hOk,
    structOk_seedAll s.records s.template s.mapStruct s.nextId hinv.tmpl_nodup hnew
      hinv.mOk⟩
  · intro f
    show ((lookupA s.template f).bind DataSaver.val).map Val.ty
      = (lookupA (seedAll s.nextId s.template s.hashStruct) f).map Prod.fst
    rw [seedAll_lookupA s.nextId s.template s.hashStruct f hinv.tmpl_nodup]
    cases hb : (lookupA s.template f).bind DataSaver.val with
    | none =>
        have ht := hinv.tmpl_ty f
        rw [hb] at ht
        simpa using ht
    | some d =>
        have ht := hinv.tmpl_ty f
        rw [hb] at ht
        cases hh : lookupA s.hashStruct f with
        | none =>
            rw [hh] at ht
            simp at ht
        | some p =>
            rw [hh] at ht
            simpa using ht
  · intro f
    show (lookupA (seedAll s.nextId s.template s.mapStruct) f).map Prod.fst
      = (lookupA (seedAll s.nextId s.template s.hashStruct) f).map Prod.fst
    rw [seedAll_lookupA s.nextId s.template s.mapStruct f hinv.tmpl_nodup,
      seedAll_lookupA s.nextId s.template s.hashStruct f hinv.tmpl_nodup]
    cases hb : (lookupA s.template f).bind DataSaver.val with
    | none => exact hinv.map_ty f
    | some d =>
        have hmt := hinv.map_ty f
        cases hh : lookupA s.hashStruct f with
        | none =>
            rw [hh] at hmt
            cases hq : lookupA s.mapStruct f with
            | none => simp
            | some q =>
                rw [hq] at hmt
                simp at hmt
        | some p =>
            rw [hh] at hmt
            cases hq : lookupA s.mapStruct f with
            | none =>
                rw [hq] at hmt
                simp at hmt
            | some q =>
                rw [hq] at hmt
                simpa using hmt
  · intro r hr
    show r < s.nextId + 1
    have he : (s.createRecord).1.records = s.records ++ [(s.nextId, s.template)] := rfl
    rw [he, List.map_append] at hr
    rcases List.mem_append.1 hr with h1 | h1
    · exact Nat.lt_succ_of_lt (hinv.ids_lt r h1)
    · have h2 : r = s.nextId := by simpa using h1
      rw [h2]
      exact Nat.lt_succ_self _
  · intro r pl hpl f ty l hl
    have hpl' : lookupA (s.records ++ [(s.nextId, s.template)]) r = some pl := hpl
    have hl' : lookupA (seedAll s.nextId s.template s.hashStruct) f = some (ty, l) := hl
    rw [seedAll_lookupA s.nextId s.template s.hashStruct f hinv.tmpl_nodup] at hl'
    cases hb : (lookupA s.template f).bind DataSaver.val with
    | none =>
        rw [hb] at hl'
        cases hro : lookupA s.records r with
        | some pl0 =>
            rw [lookupA_append_left _ _ _ _ hro] at hpl'
            have hpe := Option.some.inj hpl'
            subst hpe
            exact hinv.rec_val r pl0 hro f ty l hl'
        | none =>
            rw [lookupA_append_right _ _ _ hro] at hpl'
            simp only [lookupA] at hpl'
            by_cases hrr : s.nextId = r
            · rw [if_pos hrr] at hpl'
              have hpe := Option.some.inj hpl'
              subst hpe
              have hl2 : lookupA s.hashStruct f = some (ty, l) := hl'
              have ht := hinv.tmpl_ty f
              rw [hb, hl2] at ht
              simp at ht
            · rw [if_neg hrr] at hpl'
              cases hpl'
    | some d =>
        rw [hb] at hl'
        cases hh : lookupA s.hashStruct f with
        | none =>
            rw [hh] at hl'
            cases hl'
        | some q =>
            obtain ⟨qty, ql⟩ := q
            rw [hh] at hl'
            simp only [Option.some.injEq, Prod.mk.injEq] at hl'
            obtain ⟨hty, hll⟩ := hl'
            subst hty
            cases hro : lookupA s.records r with
            | some pl0 =>
                rw [lookupA_append_left _ _ _ _ hro] at hpl'
                have hpe := Option.some.inj hpl'
                subst hpe
                exact hinv.rec_val r pl0 hro f qty ql hh
            | none =>
                rw [lookupA_append_right _ _ _ hro] at hpl'
                simp only [lookupA] at hpl'
                by_cases hrr : s.nextId = r
                · rw [if_pos hrr] at hpl'
                  have hpe := Option.some.inj hpl'
                  subst hpe
                  refine ⟨d, hb, ?_⟩
                  have ht := hinv.tmpl_ty f
                  rw [hb, hh] at ht
                  simpa using ht
                · rw [if_neg hrr] at hpl'
                  cases hpl'

theorem engineInv_refSetData (s : NewStorage) (ref : NewRef) (key : String)
    (data : Val) (s' : NewStorage) (b : Bool) (hinv : EngineInv s)
    (h : s.refSetData ref key data = some (s', b)) : EngineInv s' := by
  cases b with
  | false =>
      rw [refSetData_some_false s ref key data s' h]
      exact hinv
  | true =>
      obtain ⟨tyH, hm, tyM, mm, rid, pl, oldv, hh, hq, htyH, htyM, hr, hpl, hold, hoty, hs'⟩ :=
        refSetData_some_true s ref key data s' h
      subst hs'
      refine ⟨hinv.tmpl_nodup, hinv.tmpl_some, ?_, ?_, ?_, ?_,
        structOk_relocate s.records s.hashStruct key tyH hm rid pl data oldv hh hpl hold
          hinv.hOk,
        structOk_relocate s.records s.mapStruct key tyM mm rid pl data oldv hq hpl hold
          hinv.mOk⟩
      · intro f
        show ((lookupA s.template f).bind DataSaver.val).map Val.ty
          = (lookupA (setA s.hashStruct key
              (tyH, eraseFirst (entryIs oldv rid) hm ++ [(data, rid)])) f).map Prod.fst
        by_cases hf : f = key
        · subst hf
          rw [lookupA_setA_self _ _ _ (by simp [hh])]
          have ht := hinv.tmpl_ty f
          rw [hh] at ht
          simpa using ht
        · rw [lookupA_setA_ne _ _ _ _ hf]
          exact hinv.tmpl_ty f
      · intro f
        show (lookupA (setA s.mapStruct key
            (tyM, eraseFirst (entryIs oldv rid) mm ++ [(data, rid)])) f).map Prod.fst
          = (lookupA (setA s.hashStruct key
              (tyH, eraseFirst (entryIs oldv rid) hm ++ [(data, rid)])) f).map Prod.fst
        by_cases hf : f = key
        · subst hf
          rw [lookupA_setA_self _ _ _ (by simp [hq]),
            lookupA_setA_self _ _ _ (by simp [hh])]
          have hmt := hinv.map_ty f
          rw [hh, hq] at hmt
          simpa using hmt
        · rw [lookupA_setA_ne _ _ _ _ hf, lookupA_setA_ne _ _ _ _ hf]
          exact hinv.map_ty f
      · intro r hrm
        show r < s.nextId
        have hrm' : r ∈ (setA s.records rid (pl.setData key data none)).map Prod.fst := hrm
        rw [setA_map_fst] at hrm'
        exact hinv.ids_lt r hrm'
      · intro r pl' hpl' f ty l hl'
        have hpl2 : lookupA (setA s.records rid (pl.setData key data none)) r
            = some pl' := hpl'
        have hl2 : lookupA (setA s.hashStruct key
            (tyH, eraseFirst (entryIs oldv rid) hm ++ [(data, rid)])) f = some (ty, l) := hl'
        by_cases hrr : r = rid
        · subst hrr
          rw [lookupA_setA_self _ _ _ (by simp [hpl])] at hpl2
          have hpe := Option.some.inj hpl2
          subst hpe
          by_cases hf : f = key
          · subst hf
            rw [lookupA_setA_self _ _ _ (by simp [hh])] at hl2
            simp only [Option.some.injEq, Prod.mk.injEq] at hl2
            obtain ⟨hty, _⟩ := hl2
            refine ⟨data, fieldVal_setData_self pl f data none, ?_⟩
            rw [← hty]
            exact htyH
          · rw [lookupA_setA_ne _ _ _ _ hf] at hl2
            obtain ⟨v, hv, hvt⟩ := hinv.rec_val r pl hpl f ty l hl2
            exact ⟨v, by rw [fieldVal_setData_ne _ _ _ _ _ hf]; exact hv, hvt⟩
        · rw [lookupA_setA_ne _ _ _ _ hrr] at hpl2
          by_cases hf : f = key
          · subst hf
            rw [lookupA_setA_self _ _ _ (by simp [hh])] at hl2
            simp only [Option.some.injEq, Prod.mk.injEq] at hl2
            obtain ⟨hty, _⟩ := hl2
            obtain ⟨v, hv, hvt⟩ := hinv.rec_val r pl' hpl2 f tyH hm hh
            refine ⟨v, hv, ?_⟩
            rw [← hty]
            exact hvt
          · rw [lookupA_setA_ne _ _ _ _ hf] at hl2
            exact hinv.rec_val r pl' hpl2 f ty l hl2

theorem engineInv_findByField (s : NewStorage) (f : String) (v : Val) (r : RecId)
    (pl : DHMap) (ty : Ty) (l : Bucket) (hinv : EngineInv s)
    (hl : lookupA s.hashStruct f = some (ty, l))
    (hpl : lookupA s.records r = some pl) (hv : fieldVal pl f = some v)
    (huniq : ∀ r' pl', lookupA s.records r' = some pl' → fieldVal pl' f = some v → r' = r) :
    s.findByField f v = (true, some r) := by
  have hcnt := hinv.hOk.1 r pl hpl f ty l hl v hv v
  rw [if_pos rfl] at hcnt
  have hmem : (v, r) ∈ l := mem_of_cnt_ne_zero l v r (by rw [hcnt]; exact one_ne_zero)
  unfold NewStorage.findByField
  simp only [hl]
  cases hfind : l.find? (fun e => decide (e.1 = v)) with
  | none =>
      rw [List.find?_eq_none] at hfind
      have h2 := hfind (v, r) hmem
      simp at h2
  | some e =>
      have he := List.mem_of_find?_eq_some hfind
      have hp : e.1 = v := by simpa using List.find?_some hfind
      obtain ⟨pl0, h0, hfv⟩ := hinv.hOk.2 f ty l hl e he
      rw [hp] at hfv
      have h3 := huniq e.2 pl0 h0 hfv
      show (true, some e.2) = (true, some r)
      rw [h3]

theorem engineInv_ns0 : EngineInv ns0 := by
  refine ⟨?_, ?_, ?_, ?_, ?_, ?_, ⟨?_, ?_⟩, ⟨?_, ?_⟩⟩
  · simp [ns0]
  · intro f sv h
    simp [ns0, lookupA] at h
  · intro f
    rfl
  · intro f
    rfl
  · intro r h
    simp [ns0] at h
  · intro r pl h
    simp [ns0, lookupA] at h
  · intro r pl h
    simp [ns0, lookupA] at h
  · intro f ty l h
    simp [ns0, lookupA] at h
  · intro r pl h
    simp [ns0, lookupA] at h
  · intro f ty l h
    simp [ns0, lookupA] at h

/-- C1 (amended): for every live record and declared field, the equality and
ordering indices each contain exactly one entry mapping the record's current
value of the field to the record (the `EngineInv`/`StructOk` invariant); the
invariant is preserved by `declareField` while no records exist yet, by
`createRecord`, and by `RecordRef::SetData`; and `findByField` on the
current value of a field resolves to a live record holding that value —
which is the queried record exactly when it is the unique live holder of
that value (with several records sharing the value, the lookup returns just
one of them). -/
theorem c1_index_invariant (s s' : NewStorage) (name key f : String) (d data v : Val)
    (ref : NewRef) (b : Bool) (r : RecId) (pl : DHMap) (ty : Ty) (l : Bucket) :
    (EngineInv s → s.records = [] → EngineInv (s.addKey name d)) ∧
    (EngineInv s → EngineInv ((s.createRecord).1)) ∧
    (EngineInv s → s.refSetData ref key data = some (s', b) → EngineInv s') ∧
    (EngineInv s → lookupA s.hashStruct f = some (ty, l) →
      lookupA s.records r = some pl → fieldVal pl f = some v →
      (∀ r' pl', lookupA s.records r' = some pl' → fieldVal pl' f = some v → r' = r) →
      s.findByField f v = (true, some r)) :=
  ⟨fun hi he => engineInv_addKey s name d hi he,
   fun hi => engineInv_createRecord s hi,
   fun hi hr => engineInv_refSetData s ref key data s' b hi hr,
   fun hi h1 h2 h3 h4 => engineInv_findByField s f v r pl ty l hi h1 h2 h3 h4⟩

/-- C1 witness: the invariant carried from the empty storage through
`declareField` and `createRecord`, and a concrete unique resolution. -/
theorem c1_index_invariant_witness :
    EngineInv ns2 ∧ ns2.findByField "id" (.vInt 0) = (true, some 0) := by
  have h0 : EngineInv ns0 := engineInv_ns0
  have h1 : EngineInv ns1 :=
    (c1_index_invariant ns0 ns0 "id" "id" "id" (.vInt 0) (.vInt 0) (.vInt 0)
      ⟨none, true⟩ false 0 [] .tInt []).1 h0 rfl
  have h2 : EngineInv ns2 :=
    (c1_index_invariant ns1 ns1 "id" "id" "id" (.vInt 0) (.vInt 0) (.vInt 0)
      ⟨none, true⟩ false 0 [] .tInt []).2.1 h1
  refine ⟨h2, (c1_index_invariant ns2 ns2 "id" "id" "id" (.vInt 0) (.vInt 0) (.vInt 0)
    ⟨none, true⟩ false 0 [("id", ⟨some (.vInt 0), none⟩)] .tInt
    [(.vInt 0, 0)]).2.2.2 h2 (by decide) (by decide) (by decide) ?_⟩
  intro r' pl' h' _
  have he : ns2.records = [(0, [("id", ⟨some (.vInt 0), none⟩)])] := by decide
  rw [he] at h'
  simp only [lookupA] at h'
  by_cases hr' : (0 : RecId) = r'
  · exact hr'.symm
  · rw [if_neg hr'] at h'
    exact absurd h' (by simp [lookupA])

/-- C1 counterexample: in `ns5` both live records 0 and 1 currently hold 5
in field "id" (record 1 was moved there by the real `SetData`, which always
`emplace`s into the multimap indices); `findByField("id", 5)` resolves to
record 0 only, so the claimed "findByField on (f, current-value-of-f-in-r)
resolves to r for every live record r" fails for record 1. -/
theorem c1_findByField_duplicate_values :
    ns5.records.map Prod.fst = [0, 1] ∧
    (lookupA ns5.records 1).bind (fun pl => fieldVal pl "id") = some (.vInt 5) ∧
    ns5.findByField "id" (.vInt 5) = (true, some 0) ∧
    ns5.findByField "id" (.vInt 5) ≠ (true, some 1) := by
  decide
